import Mathlib

/-!
Verification of the ctrlk search-and-ranking engine.

This file is a shallow embedding of the TypeScript sources
`src/search/search-engine.ts`, `src/search/search-config.ts` and
`src/search/search-api.ts` (class `RxSearchManager`), together with
theorems settling the specification claims about index building,
query planning, scoring, sorting, deduplication, suggestion merging
and query sequencing.

Modelling conventions:
* JS strings are Lean `String`s, and the JS string operations used by the
  code (`toLowerCase`, `trim`, `includes`, `startsWith`, `split`, `length`)
  are re-implemented below by structural recursion on the underlying
  character list, so that every definition evaluates inside the kernel.
  `toLowerCase` is modelled for the ASCII alphabet (all the constants the
  code compares against are ASCII), and `length` counts characters.
* JS numbers that the code only ever adds, subtracts, multiplies and
  compares (scores, boosts, timestamps, counts) are modelled as `Int`;
  the one `Math.floor` applied to them (`calculateScore`) is the identity
  on integers.
* The external collaborators are oracles passed in as arguments: the
  fuse.js engine is a function from the indexed document list, a query
  string and a limit to a hit list carrying the already-inverted match
  weight `(1 - fuseScore) * 100` as a natural number; the remote
  suggestion fetch is an `Option (List String)` (`none` = network
  failure/non-ok response); `Date.now()` is an `Int` parameter; the
  user-habit boost derived from the (never populated) `analyticsCache`
  is a function from a registrable domain to a natural number.
* JS `Array.prototype.sort` is stable; it is modelled by a stable
  insertion sort on the comparator relation `compare a b ≤ 0`.
-/

namespace Ctrlk

/-! ## JS string semantics layer -/

/-- ASCII lower-casing of one character, as `String.prototype.toLowerCase`
acts on the ASCII range. -/
def charLower (c : Char) : Char :=
  if 'A' ≤ c ∧ c ≤ 'Z' then Char.ofNat (c.toNat + 32) else c

/-- Models JS `s.toLowerCase()` for ASCII text. -/
def toLower (s : String) : String :=
  ⟨s.data.map charLower⟩

/-- Models JS `s.trim()`: strips leading and trailing whitespace. -/
def trim (s : String) : String :=
  ⟨((s.data.dropWhile Char.isWhitespace).reverse.dropWhile Char.isWhitespace).reverse⟩

/-- Models JS `s.length` (all strings in this development are within the
basic multilingual plane, where UTF-16 length = character count). -/
def strLen (s : String) : Nat :=
  s.data.length

/-- Does `l` start with `pat`? -/
def listStartsWith : List Char → List Char → Bool
  | _, [] => true
  | [], _ :: _ => false
  | c :: cs, p :: ps => c = p && listStartsWith cs ps

/-- Does `l` contain `pat` as a contiguous sublist? -/
def listContainsSub (pat : List Char) : List Char → Bool
  | [] => pat.isEmpty
  | c :: cs => listStartsWith (c :: cs) pat || listContainsSub pat cs

/-- Models JS `s.startsWith(t)`. -/
def strStartsWith (s t : String) : Bool :=
  listStartsWith s.data t.data

/-- Models JS `s.includes(t)`. -/
def strIncludes (s t : String) : Bool :=
  listContainsSub t.data s.data

/-- Splits a character list at every character satisfying `p`, keeping
empty chunks (the semantics of JS `split` with a single-character
separator, and of Lean `String.split`). -/
def splitChars (p : Char → Bool) : List Char → List (List Char)
  | [] => [[]]
  | c :: rest =>
    if p c then [] :: splitChars p rest
    else
      match splitChars p rest with
      | [] => [[c]]
      | g :: gs => (c :: g) :: gs

/-- Models JS `s.split(c)` for a one-character separator `c`. -/
def splitOnChar (c : Char) (s : String) : List String :=
  (splitChars (fun d => d = c) s.data).map fun g => ⟨g⟩

/-- Models JS `s.split(/\s+/)`: splits on maximal whitespace runs; a
leading (trailing) whitespace run contributes a leading (trailing) empty
string, and the empty string splits to `[""]`. -/
def jsSplitWs (s : String) : List String :=
  if s.data = [] then [""]
  else
    let core := ((splitChars Char.isWhitespace s.data).filter fun g => g ≠ []).map
      fun g => (⟨g⟩ : String)
    let lead : List String := if s.data.headD 'a' |>.isWhitespace then [""] else []
    let trail : List String := if s.data.getLastD 'a' |>.isWhitespace then [""] else []
    lead ++ core ++ trail

/-- Removes the first occurrence of `"www."` (the behaviour of JS
`s.replace('www.', '')`, which replaces only the first match). -/
def removeFirstWww : List Char → List Char
  | 'w' :: 'w' :: 'w' :: '.' :: rest => rest
  | c :: rest => c :: removeFirstWww rest
  | [] => []

/-! ## Stable sort (models JS `Array.prototype.sort`) -/

/-- Inserts `a` before the first element `b` with `le a b`; used to model
the stable JS sort. -/
def insertOrdered (le : α → α → Bool) (a : α) : List α → List α
  | [] => [a]
  | b :: bs => if le a b then a :: b :: bs else b :: insertOrdered le a bs

/-- Stable sort by the Boolean relation `le a b` = "a may come before b"
(for a JS comparator `c`, `le a b := c a b ≤ 0`).  For the consistent
comparators the code uses this agrees with the (stable, since ES2019)
JS `Array.prototype.sort`. -/
def sortBy (le : α → α → Bool) : List α → List α
  | [] => []
  | a :: rest => insertOrdered le a (sortBy le rest)

theorem insertOrdered_perm (le : α → α → Bool) (a : α) (l : List α) :
    List.Perm (insertOrdered le a l) (a :: l) := by
  induction l with
  | nil => simp [insertOrdered]
  | cons b bs ih =>
    simp only [insertOrdered]
    by_cases h : le a b = true
    · simp [h]
    · rw [if_neg h]
      exact ((ih.cons b).trans (List.Perm.swap a b bs))

theorem sortBy_perm (le : α → α → Bool) (l : List α) : List.Perm (sortBy le l) l := by
  induction l with
  | nil => simp [sortBy]
  | cons a rest ih =>
    exact (insertOrdered_perm le a (sortBy le rest)).trans (ih.cons a)

theorem mem_sortBy {le : α → α → Bool} {a : α} {l : List α} :
    a ∈ sortBy le l ↔ a ∈ l :=
  (sortBy_perm le l).mem_iff

theorem countP_sortBy (le : α → α → Bool) (p : α → Bool) (l : List α) :
    (sortBy le l).countP p = l.countP p :=
  (sortBy_perm le l).countP_eq p

/-! ## SEARCH_CONFIG (`src/search/search-config.ts`) -/

/-- `SEARCH_CONFIG.MIN_QUERY_LENGTH`. -/
def MIN_QUERY_LENGTH : Nat := 2

/-- `SEARCH_CONFIG.HISTORY.MAX_PER_DOMAIN` (history fetch dedup cap). -/
def HISTORY_MAX_PER_DOMAIN : Nat := 3

/-- `SEARCH_CONFIG.DOMAIN_DEDUPLICATION.HISTORY_MAX_PER_DOMAIN`. -/
def DEDUP_HISTORY_MAX_PER_DOMAIN : Nat := 2

/-- `SEARCH_CONFIG.DOMAIN_DEDUPLICATION.BOOKMARK_MAX_PER_DOMAIN`. -/
def DEDUP_BOOKMARK_MAX_PER_DOMAIN : Nat := 3

/-- `SEARCH_CONFIG.DOMAIN_DEDUPLICATION.ENABLED`. -/
def DOMAIN_DEDUPLICATION_ENABLED : Bool := true

/-- Milliseconds per day, the divisor in the recency buckets. -/
def msPerDay : Int := 24 * 60 * 60 * 1000

/-! ## Data model (`search-engine.ts` interfaces) -/

/-- `IndexDocument.type`: `"bookmark" | "tab" | "history"`. -/
inductive DocType where
  | bookmark | tab | history
deriving DecidableEq, Repr

/-- `SearchResult.type`: `"bookmark" | "tab" | "history" | "suggestion"`. -/
inductive ResultType where
  | bookmark | tab | history | suggestion
deriving DecidableEq, Repr

def DocType.toResultType : DocType → ResultType
  | .bookmark => .bookmark
  | .tab => .tab
  | .history => .history

/-- `IndexDocument` (`search-engine.ts`).  The presentation-only field
`favicon` is carried along; `snippet`/`highlights` of `SearchResult` are
presentation-only and not modelled (no claim mentions them). -/
structure IndexDocument where
  id : String
  title : String
  url : String
  type : DocType
  favicon : Option String := none
  searchText : String
  lastVisitTime : Option Int := none
  visitCount : Option Int := none
deriving DecidableEq, Repr

/-- `SearchResult` (`search-engine.ts`), minus the presentation-only
`snippet`, `highlights` and `favicon` fields. -/
structure SearchResult where
  id : String
  type : ResultType
  title : String
  url : String
  score : Int
  lastVisitTime : Option Int := none
  visitCount : Option Int := none
  suggestion : Option String := none
deriving DecidableEq, Repr

/-- `BookmarkData`. -/
structure BookmarkData where
  id : String
  title : String
  url : String
deriving DecidableEq, Repr

/-- `HistoryData`. -/
structure HistoryData where
  id : String
  title : String
  url : String
  lastVisitTime : Int
  visitCount : Int
deriving DecidableEq, Repr

/-- `TabData`. -/
structure TabData where
  id : String
  title : String
  url : String
  favIconUrl : Option String := none
deriving DecidableEq, Repr

/-- JS truthiness of an optional string (`undefined` and `""` are falsy). -/
def jsTruthyStr : Option String → Bool
  | none => false
  | some s => s ≠ ""

/-- JS `o || dflt` on an optional string. -/
def jsOrElse (o : Option String) (dflt : String) : String :=
  match o with
  | none => dflt
  | some s => if s = "" then dflt else s

/-! ## URL model -/

/-- Helper for `parseURLParts`: splits the character list at the first
occurrence of `"://"`. -/
def splitScheme : List Char → List Char → Option (List Char × List Char)
  | acc, ':' :: '/' :: '/' :: rest => some (acc.reverse, rest)
  | acc, c :: rest => splitScheme (c :: acc) rest
  | _, [] => none

/-- Models the host-platform WHATWG `new URL(url)` parser for the URL
shapes this codebase handles, returning `(hostname, pathname)` on
success and `none` when the constructor would throw: parsing succeeds
for `scheme://host[:port][/path][?query][#hash]` with a nonempty
alphabetic scheme and a nonempty whitespace-free host; the hostname is
normalized to lower case and an absent path is `"/"`, as WHATWG
prescribes for special schemes. -/
def parseURLParts (url : String) : Option (String × String) :=
  match splitScheme [] url.data with
  | none => none
  | some (scheme, rest) =>
    if scheme ≠ [] ∧ scheme.all Char.isAlpha ∧ rest ≠ [] then
      let isHostEnd := fun (c : Char) => c = '/' ∨ c = '?' ∨ c = '#' ∨ c = ':'
      let host := rest.takeWhile fun c => ¬ isHostEnd c
      let afterHost := rest.dropWhile fun c => ¬ isHostEnd c
      let afterPort :=
        if afterHost.headD ' ' = ':' then afterHost.dropWhile fun c => c ≠ '/'
        else afterHost
      let path :=
        if afterPort.headD ' ' = '/' then
          afterPort.takeWhile fun c => ¬ (c = '?' ∨ c = '#')
        else ['/']
      if host ≠ [] ∧ host.all fun c => ¬ c.isWhitespace then
        some (⟨host.map charLower⟩, ⟨path⟩)
      else none
    else none

/-- `new URL(url).hostname` (lower-cased by the platform), or `none` when
the constructor throws. -/
def parseHostname (url : String) : Option String :=
  (parseURLParts url).map fun p => p.1

/-! ## Domain utilities (`SearchEngine.extractMainDomain`) -/

/-- The `commonSecondLevelDomains` list of `extractMainDomain`. -/
def commonSecondLevelDomains : List String :=
  ["co", "com", "org", "net", "gov", "edu", "ac"]

/-- `SearchEngine.extractMainDomain` (`search-engine.ts` lines 610-636):
registrable-domain extraction with the compound second-level-domain
special case, returning the input unchanged when URL parsing fails. -/
def extractMainDomain (url : String) : String :=
  match parseHostname url with
  | none => url
  | some h =>
    let hostname := toLower h
    let parts := splitOnChar '.' hostname
    if 2 ≤ parts.length then
      let tld := parts.getD (parts.length - 1) ""
      let domain := parts.getD (parts.length - 2) ""
      if 3 ≤ parts.length ∧ domain ∈ commonSecondLevelDomains then
        parts.getD (parts.length - 3) "" ++ "." ++ domain ++ "." ++ tld
      else
        domain ++ "." ++ tld
    else hostname

/-! ## Raw source records (the chrome collaborator interfaces) -/

/-- A raw `chrome.tabs.Tab` as consumed by `getTabs` (only the fields
read there). -/
structure RawTab where
  id : Option Int := none
  title : Option String := none
  url : Option String := none
  favIconUrl : Option String := none
deriving DecidableEq, Repr

/-- A raw `chrome.history.HistoryItem` as consumed by `getHistory`. -/
structure RawHistoryItem where
  id : Option String := none
  title : Option String := none
  url : Option String := none
  lastVisitTime : Option Int := none
  visitCount : Option Int := none
deriving DecidableEq, Repr

/-- A raw `chrome.bookmarks.BookmarkTreeNode` as consumed by
`getBookmarks` (folder nodes have no `url` and carry children). -/
inductive RawBookmarkNode where
  | mk (id : String) (title : Option String) (url : Option String)
       (children : List RawBookmarkNode)

mutual

/-- One node's contribution in the recursive `traverse` of
`SearchEngine.getBookmarks`: a node with a (truthy) `url` becomes a
`BookmarkData` with `title || 'Untitled'`, followed by its traversed
children. -/
def traverseBookmarkNode : RawBookmarkNode → List BookmarkData
  | RawBookmarkNode.mk id title url children =>
    (if jsTruthyStr url then
      [{ id := id, title := jsOrElse title "Untitled", url := url.getD "" }]
     else [])
    ++ traverseBookmarks children

/-- The recursive `traverse` of `SearchEngine.getBookmarks` over a
sibling list: each node is visited before its children, children before
later siblings. -/
def traverseBookmarks : List RawBookmarkNode → List BookmarkData
  | [] => []
  | node :: rest => traverseBookmarkNode node ++ traverseBookmarks rest

end

/-- `SearchEngine.getBookmarks` on an already-delivered bookmark tree. -/
def getBookmarks (tree : List RawBookmarkNode) : List BookmarkData :=
  traverseBookmarks tree

/-- The `id` field of a raw bookmark node. -/
def RawBookmarkNode.nodeId : RawBookmarkNode → String
  | mk i _ _ _ => i

/-- The `title` field of a raw bookmark node. -/
def RawBookmarkNode.nodeTitle : RawBookmarkNode → Option String
  | mk _ t _ _ => t

/-- The `url` field of a raw bookmark node. -/
def RawBookmarkNode.nodeUrl : RawBookmarkNode → Option String
  | mk _ _ u _ => u

mutual

/-- A node together with all its descendants. -/
def allNodesOfBookmark : RawBookmarkNode → List RawBookmarkNode
  | RawBookmarkNode.mk i t u c => RawBookmarkNode.mk i t u c :: allBookmarkNodes c

/-- All nodes of a bookmark forest, parents before children. -/
def allBookmarkNodes : List RawBookmarkNode → List RawBookmarkNode
  | [] => []
  | node :: rest => allNodesOfBookmark node ++ allBookmarkNodes rest

end

/-- `SearchEngine.getTabs` on an already-delivered tab list: keeps tabs
with a defined `id` and truthy `url`, defaulting missing titles to
`'Untitled'`. -/
def getTabs (tabs : List RawTab) : List TabData :=
  (tabs.filter fun t => t.id ≠ none && jsTruthyStr t.url).map fun t =>
    { id := toString (t.id.getD 0)
      title := jsOrElse t.title "Untitled"
      url := t.url.getD ""
      favIconUrl := t.favIconUrl }

/-- `SearchEngine.deduplicateHistoryByDomain`: greedily keeps at most
`maxPerDomain` items per registrable domain, in list order. -/
def deduplicateHistoryByDomain (maxPerDomain : Nat) :
    List HistoryData → (String → Nat) → List HistoryData
  | [], _ => []
  | item :: rest, domainCounts =>
    let domain := extractMainDomain item.url
    if domainCounts domain < maxPerDomain then
      item :: deduplicateHistoryByDomain maxPerDomain rest
        (fun d => if d = domain then domainCounts domain + 1 else domainCounts d)
    else
      deduplicateHistoryByDomain maxPerDomain rest domainCounts

/-- `SearchEngine.getHistory` on an already-delivered history item list:
keeps items with truthy `url` and truthy `title`, ids them by filtered
position (with `item.id || Date.now()`, the clock value passed as
`nowStr`), sorts by `lastVisitTime` descending, and deduplicates by
domain with cap `HISTORY_MAX_PER_DOMAIN`. -/
def getHistory (items : List RawHistoryItem) (nowStr : String) : List HistoryData :=
  let filtered := items.filter fun i => jsTruthyStr i.url && jsTruthyStr i.title
  let mapped := filtered.enum.map fun p =>
    ({ id := toString p.1 ++ "-" ++ jsOrElse p.2.id nowStr
       title := jsOrElse p.2.title "Untitled"
       url := p.2.url.getD ""
       lastVisitTime := p.2.lastVisitTime.getD 0
       visitCount := p.2.visitCount.getD 0 } : HistoryData)
  let sorted := sortBy (fun a b => decide (b.lastVisitTime ≤ a.lastVisitTime)) mapped
  deduplicateHistoryByDomain HISTORY_MAX_PER_DOMAIN sorted (fun _ => 0)

/-! ## Normalization and index building -/

/-- `SearchEngine.createSearchText`: lower-cased `title + domain (www.
stripped) + path (separators to spaces)`, falling back to
`title + url` when URL parsing fails. -/
def createSearchText (title url : String) : String :=
  match parseURLParts url with
  | some (host, pathname) =>
    let domain : String := ⟨removeFirstWww host.data⟩
    let path : String :=
      ⟨pathname.data.map fun c => if c = '/' ∨ c = '-' ∨ c = '_' then ' ' else c⟩
    trim (toLower (title ++ " " ++ domain ++ " " ++ path))
  | none => trim (toLower (title ++ " " ++ url))

/-- The document-construction loops of `SearchEngine.buildIndex`
(`search-engine.ts` lines 113-159): bookmarks, then tabs, then history. -/
def buildDocuments (bookmarks : List BookmarkData) (tabs : List TabData)
    (history : List HistoryData) : List IndexDocument :=
  (bookmarks.map fun b =>
    ({ id := "bookmark-" ++ b.id, title := b.title, url := b.url
       type := .bookmark, searchText := createSearchText b.title b.url } : IndexDocument))
  ++ (tabs.map fun t =>
    let title := if t.title = "" then "Untitled" else t.title
    let url := t.url
    ({ id := "tab-" ++ t.id, title := title, url := url, type := .tab
       favicon := some (t.favIconUrl.getD "")
       searchText := createSearchText title url } : IndexDocument))
  ++ (history.map fun h =>
    let title := if h.title = "" then "Untitled" else h.title
    let url := h.url
    ({ id := "history-" ++ h.id, title := title, url := url, type := .history
       searchText := createSearchText title url
       lastVisitTime := some h.lastVisitTime
       visitCount := some h.visitCount } : IndexDocument))

/-- The engine's mutable state: the current document generation and the
initialization flag.  The compiled Fuse index is a pure function of
`documents` (it is rebuilt from them by `initializeFuse` on every
generation), so it is represented by the document list itself; the
never-written `analyticsCache` is represented by the habit oracle at the
call sites. -/
structure EngineState where
  documents : List IndexDocument
  isInitialized : Bool
deriving DecidableEq, Repr

/-- The raw snapshots delivered by the three concurrent source fetches. -/
structure FetchedRaw where
  bookmarkTree : List RawBookmarkNode
  tabs : List RawTab
  history : List RawHistoryItem

/-- `SearchEngine.buildIndex`: the three source fetches are awaited
(`Promise.all`) before any state is mutated, so a fetch failure
(`.error`) leaves the state untouched and is reported to the caller
(the `catch` logs and rethrows); on success the previous generation is
replaced wholesale and `isInitialized` becomes true.  Returns the new
state and the reported error, if any. -/
def buildIndex (st : EngineState) (fetch : Except String FetchedRaw)
    (nowStr : String) : EngineState × Option String :=
  match fetch with
  | .error e => (st, some e)
  | .ok raw =>
    ({ documents := buildDocuments (getBookmarks raw.bookmarkTree)
         (getTabs raw.tabs) (getHistory raw.history nowStr)
       isInitialized := true }, none)

/-! ## Query planner (`searchLocal`'s `searchStrategies`) -/

/-- One query variant: the extended-search query string, its boost and
its description tag. -/
structure Strategy where
  q : String
  boost : Int
  description : String
deriving DecidableEq, Repr

/-- The `searchStrategies` array built in `SearchEngine.searchLocal`
(`search-engine.ts` lines 257-274): exact phrase (boost 100), fuzzy whole
query (boost 80), one per word of length ≥ `MIN_QUERY_LENGTH` (boost 60),
one prefixed variant per word of length ≥ 3 (boost 70). -/
def searchStrategies (cleanQuery : String) : List Strategy :=
  [⟨"=\"" ++ cleanQuery ++ "\"", 100, "exact"⟩, ⟨cleanQuery, 80, "normal"⟩]
  ++ (((jsSplitWs cleanQuery).filter fun w => MIN_QUERY_LENGTH ≤ strLen w).map
      fun w => (⟨w, 60, "word"⟩ : Strategy))
  ++ (((jsSplitWs cleanQuery).filter fun w => 3 ≤ strLen w).map
      fun w => (⟨"^" ++ w, 70, "prefix"⟩ : Strategy))

/-- Modelled from the spec's words (§4.4 / claim C5), for comparison with
the source's `searchStrategies`: an exact-phrase variant with boost 100,
a fuzzy whole-query variant with boost 80, a variant per
whitespace-delimited word of length ≥ the minimum query length (2) with
boost 60, and a prefixed variant per word of length ≥ 3 with boost 70. -/
def specQueryVariants (q : String) : List (String × Int) :=
  [("=\"" ++ q ++ "\"", 100), (q, 80)]
  ++ ((jsSplitWs q).filter fun w => 2 ≤ strLen w).map (fun w => (w, 60))
  ++ ((jsSplitWs q).filter fun w => 3 ≤ strLen w).map (fun w => ("^" ++ w, 70))

/-! ## Scorer (`SearchEngine.calculateScore`) -/

/-- The title block of `calculateScore`: exact equality 500 else
containment 200, plus 150 more when the title starts with the query
(lines 647-656). -/
def titleScore (queryLower titleLower : String) : Int :=
  (if titleLower = queryLower then 500
   else if strIncludes titleLower queryLower then 200 else 0)
  + (if strStartsWith titleLower queryLower then 150 else 0)

/-- The per-word nested loop of `calculateScore` (lines 658-670):
+40 per exact query-word/title-word pair, +20 per containment pair. -/
def wordMatchScore (queryWords titleWords : List String) : Int :=
  queryWords.foldl (fun s qw =>
    titleWords.foldl (fun s2 tw =>
      if tw = qw then s2 + 40
      else if strIncludes tw qw then s2 + 20 else s2) s) 0

/-- The history visit-count bonus of `calculateScore` (lines 685-688):
`min(visitCount*2, 20)` when `visitCount > 1`. -/
def historyVisitScore (visitCount : Option Int) : Int :=
  match visitCount with
  | some vc => if 1 < vc then min (vc * 2) 20 else 0
  | none => 0

/-- The history recency bonus of `calculateScore` (lines 690-697): 10/5
for visits under 1/7 days old; a zero `lastVisitTime` is falsy and skips
the branch. -/
def historyRecencyScore (lastVisitTime : Option Int) (now : Int) : Int :=
  match lastVisitTime with
  | some t =>
    if t = 0 then 0
    else if now - t < msPerDay then 10
    else if now - t < 7 * msPerDay then 5 else 0
  | none => 0

/-- The type-weighting block of `calculateScore` (lines 681-702): tab 15;
history visit-count and recency bonuses plus the flat 5; bookmark 10. -/
def typeScore (doc : IndexDocument) (now : Int) : Int :=
  match doc.type with
  | .tab => 15
  | .bookmark => 10
  | .history =>
    historyVisitScore doc.visitCount + historyRecencyScore doc.lastVisitTime now + 5

/-- The URL-containment bonus of `calculateScore` (lines 672-675). -/
def urlContainsScore (urlLower queryLower : String) : Int :=
  if strIncludes urlLower queryLower then 30 else 0

/-- The searchText-containment bonus of `calculateScore` (lines 677-679). -/
def searchTextContainsScore (searchTextLower queryLower : String) : Int :=
  if strIncludes searchTextLower queryLower then 20 else 0

/-- The hostname-containment bonus of `calculateScore` (lines 704-712):
+25 when the hostname contains the query, URL parse errors ignored. -/
def hostContainsScore (url queryLower : String) : Int :=
  match parseHostname url with
  | some domain => if strIncludes (toLower domain) queryLower then 25 else 0
  | none => 0

/-- `SearchEngine.calculateScore` (lines 638-715), written as the sum of
its additive blocks in source order; `Math.floor(score * boost)` is
`score * boost` on integers. -/
def calculateScore (query : String) (doc : IndexDocument) (boost : Int)
    (now : Int) : Int :=
  let queryLower := toLower query
  let titleLower := toLower doc.title
  let score :=
    titleScore queryLower titleLower
    + wordMatchScore ((jsSplitWs queryLower).filter fun w => 1 < strLen w)
        (jsSplitWs titleLower)
    + urlContainsScore (toLower doc.url) queryLower
    + searchTextContainsScore (toLower doc.searchText) queryLower
    + typeScore doc now
    + hostContainsScore doc.url queryLower
  score * boost

/-! ## Deduplicator (`deduplicateResults` / `deduplicateResultsByDomain`) -/

/-- The greedy loop of `SearchEngine.deduplicateResultsByDomain` (lines
813-827): skip already-seen ids, keep a result only while its registrable
domain is below the cap. -/
def dedupDomainGo (maxPerDomain : Nat) :
    List SearchResult → List String → (String → Nat) → List SearchResult
  | [], _, _ => []
  | r :: rest, seen, domainCounts =>
    if r.id ∈ seen then dedupDomainGo maxPerDomain rest seen domainCounts
    else
      let domain := extractMainDomain r.url
      if domainCounts domain < maxPerDomain then
        r :: dedupDomainGo maxPerDomain rest (r.id :: seen)
          (fun d => if d = domain then domainCounts domain + 1 else domainCounts d)
      else
        dedupDomainGo maxPerDomain rest seen domainCounts

/-- `SearchEngine.deduplicateResultsByDomain`: sort by score descending
(the JS stable sort), then greedily cap per domain. -/
def deduplicateResultsByDomain (results : List SearchResult)
    (maxPerDomain : Nat) : List SearchResult :=
  dedupDomainGo maxPerDomain
    (sortBy (fun a b => decide (b.score ≤ a.score)) results) [] (fun _ => 0)

/-- The id-only dedup used for tab/suggestion groups (and for the
whole list when domain dedup is disabled). -/
def dedupById : List SearchResult → List String → List SearchResult
  | [], _ => []
  | r :: rest, seen =>
    if r.id ∈ seen then dedupById rest seen
    else r :: dedupById rest (r.id :: seen)

/-- First occurrences, in order: the key insertion order of the JS
`Map` that `deduplicateResults` groups by type. -/
def distinctKeys : List ResultType → List ResultType
  | [] => []
  | t :: ts => t :: (distinctKeys ts).filter fun u => u ≠ t

/-- One type group's processing in `deduplicateResults` (the
`byType.forEach` body, lines 774-797): history capped at 2 per domain,
bookmarks at 3, other types deduped by id only. -/
def dedupTypeGroup (results : List SearchResult) (t : ResultType) :
    List SearchResult :=
  let typeResults := results.filter fun r => r.type = t
  match t with
  | .history => deduplicateResultsByDomain typeResults DEDUP_HISTORY_MAX_PER_DOMAIN
  | .bookmark => deduplicateResultsByDomain typeResults DEDUP_BOOKMARK_MAX_PER_DOMAIN
  | _ => dedupById typeResults []

/-- `SearchEngine.deduplicateResults` (lines 748-800): with domain dedup
enabled, group by type (groups ordered by each type's first occurrence,
the `Map` insertion order) and process each group per `dedupTypeGroup`. -/
def deduplicateResults (results : List SearchResult) : List SearchResult :=
  if ¬ DOMAIN_DEDUPLICATION_ENABLED then dedupById results []
  else
    (distinctKeys (results.map fun r => r.type)).flatMap (dedupTypeGroup results)

/-! ## Second ranking pass (`SearchEngine.applySortingOptimization`) -/

/-- The query/title match block of the adjustment pass (lines 341-354):
+1000 exact, else +500 starts-with, else +200 contains. -/
def matchBonus (queryLower titleLower : String) : Int :=
  if titleLower = queryLower then 1000
  else if strStartsWith titleLower queryLower then 500
  else if strIncludes titleLower queryLower then 200
  else 0

/-- The URL-domain block (lines 356-364): +100 when the hostname contains
the query; URL parse errors are ignored. -/
def domainBonus (queryLower url : String) : Int :=
  match parseHostname url with
  | some domain => if strIncludes (toLower domain) queryLower then 100 else 0
  | none => 0

/-- The type-priority adjustments (lines 366-380). -/
def typeAdjust : ResultType → Int
  | .tab => 150
  | .bookmark => 100
  | .history => 50
  | .suggestion => -50

/-- The visit-frequency part of the adjustment pass's history block
(lines 397-400): `min(visitCount*5, 100)` when `visitCount > 1`. -/
def historyAdjustVisit (visitCount : Option Int) : Int :=
  match visitCount with
  | some vc => if 1 < vc then min (vc * 5) 100 else 0
  | none => 0

/-- The recency part of the adjustment pass's history block (lines
402-412): 80/40/20 for visits under 1/7/30 days; a zero `lastVisitTime`
is falsy and skips the branch. -/
def historyAdjustRecency (lastVisitTime : Option Int) (now : Int) : Int :=
  match lastVisitTime with
  | some t =>
    if t = 0 then 0
    else if now - t < msPerDay then 80
    else if now - t < 7 * msPerDay then 40
    else if now - t < 30 * msPerDay then 20 else 0
  | none => 0

/-- The history block of the adjustment pass (lines 395-413). -/
def historyAdjust (r : SearchResult) (now : Int) : Int :=
  if r.type = .history then
    historyAdjustVisit r.visitCount + historyAdjustRecency r.lastVisitTime now
  else 0

/-- The title-length adjustment (lines 415-421). -/
def titleLenAdjust (title : String) : Int :=
  if strLen title < 30 then 20
  else if 80 < strLen title then -10
  else 0

/-- `SearchEngine.getQuickUserHabitBoost`: the boost computed from
`analyticsCache` for the result's registrable domain.  The cache lookup
and its log-scaled/recency formula (floating point, and the cache is
never populated by this program) are the oracle `habit`; the
domain-extraction step is kept from the source. -/
def getQuickUserHabitBoost (habit : String → Nat) (r : SearchResult) : Nat :=
  habit (extractMainDomain r.url)

/-- The per-result adjustment map of `applySortingOptimization` (lines
337-428), written as the sum of its additive blocks in source order. -/
def adjustResult (queryLower : String) (now : Int) (habit : String → Nat)
    (r : SearchResult) : SearchResult :=
  { r with score :=
      r.score
      + matchBonus queryLower (toLower r.title)
      + domainBonus queryLower r.url
      + typeAdjust r.type
      + (getQuickUserHabitBoost habit r : Int)
      + historyAdjust r now
      + titleLenAdjust r.title }

/-- The `typeOrder` object literal of the comparator (line 455):
`{ tab: 0, bookmark: 1, history: 2, suggestion: 3 }`. -/
def typeOrderLiteral : ResultType → Int
  | .tab => 0
  | .bookmark => 1
  | .history => 2
  | .suggestion => 3

/-- JS `x || dflt` on a number: `0` is falsy.  (This is how the
comparator reads `typeOrder[a.type] || 999`, so a tab's priority `0`
becomes `999`.) -/
def jsOrInt (x dflt : Int) : Int :=
  if x = 0 then dflt else x

/-- The multi-level sort comparator of `applySortingOptimization` (lines
431-481): raw score difference outside the 10-point tie band; inside it,
exact title match, then title-starts-with, then `typeOrder[·] || 999`,
then (both history) visit count and last visit time, then title length. -/
def applySortCmp (queryLower : String) (a b : SearchResult) : Int :=
  let scoreDiff := b.score - a.score
  if 10 < scoreDiff.natAbs then scoreDiff
  else
    let aExactMatch := toLower a.title = queryLower
    let bExactMatch := toLower b.title = queryLower
    if aExactMatch ≠ bExactMatch then (if aExactMatch then -1 else 1)
    else
      let aStarts := strStartsWith (toLower a.title) queryLower
      let bStarts := strStartsWith (toLower b.title) queryLower
      if aStarts ≠ bStarts then (if aStarts = true then -1 else 1)
      else
        let aTypeOrder := jsOrInt (typeOrderLiteral a.type) 999
        let bTypeOrder := jsOrInt (typeOrderLiteral b.type) 999
        if aTypeOrder ≠ bTypeOrder then aTypeOrder - bTypeOrder
        else if a.type = .history ∧ b.type = .history then
          let aVisitCount := a.visitCount.getD 0
          let bVisitCount := b.visitCount.getD 0
          if aVisitCount ≠ bVisitCount then bVisitCount - aVisitCount
          else
            let aLastVisit := a.lastVisitTime.getD 0
            let bLastVisit := b.lastVisitTime.getD 0
            if aLastVisit ≠ bLastVisit then bLastVisit - aLastVisit
            else (strLen a.title : Int) - (strLen b.title : Int)
        else (strLen a.title : Int) - (strLen b.title : Int)

/-- `SearchEngine.applySortingOptimization`: adjust every result, sort
with the comparator, truncate to `limit`. -/
def applySortingOptimization (results : List SearchResult) (query : String)
    (limit : Nat) (now : Int) (habit : String → Nat) : List SearchResult :=
  let queryLower := toLower query
  let optimizedResults := results.map (adjustResult queryLower now habit)
  let sortedResults :=
    sortBy (fun a b => decide (applySortCmp queryLower a b ≤ 0)) optimizedResults
  sortedResults.take limit

/-! ## Local search (`SearchEngine.searchLocal`) -/

/-- The fuse.js engine as an oracle: document list, extended-search query
and search limit to a hit list, each hit carrying the already-inverted
weight `(1 - fuseResult.score) * 100` (an integer 0-100 stands in for
the floating-point value). -/
abbrev FuseOracle :=
  List IndexDocument → String → Nat → List (IndexDocument × Nat)

/-- Construction of a `SearchResult` from a hit document (lines 295-308);
`lastVisitTime`/`visitCount` are carried only for history documents. -/
def toSearchResult (doc : IndexDocument) (finalScore : Int) : SearchResult :=
  { id := doc.id
    type := doc.type.toResultType
    title := doc.title
    url := doc.url
    score := finalScore
    lastVisitTime := if doc.type = .history then doc.lastVisitTime else none
    visitCount := if doc.type = .history then doc.visitCount else none }

/-- The `allResults` map update (lines 286-311): a `Map` keyed by
document id, replacing an entry in place only when the new final score
is strictly higher, appending unseen ids in encounter order. -/
def upsertResult (acc : List SearchResult) (r : SearchResult) : List SearchResult :=
  if acc.any fun x => x.id = r.id then
    acc.map fun x => if x.id = r.id ∧ x.score < r.score then r else x
  else acc ++ [r]

/-- `SearchEngine.searchLocal` (lines 241-328).  Returns the result list
and whether the "Search index not initialized" warning was logged. -/
def searchLocal (st : EngineState) (query : String) (limit : Nat)
    (fuse : FuseOracle) (now : Int) (habit : String → Nat) :
    List SearchResult × Bool :=
  if ¬ st.isInitialized then ([], true)
  else
    let cleanQuery := toLower query
    if strLen cleanQuery < MIN_QUERY_LENGTH then ([], false)
    else
      let allResults := (searchStrategies cleanQuery).foldl (fun acc strat =>
        (fuse st.documents strat.q (limit * 2)).foldl (fun acc2 hit =>
          let customScore := calculateScore cleanQuery hit.1 strat.boost now
          let fuseWeight : Int := hit.2
          upsertResult acc2 (toSearchResult hit.1 (customScore + fuseWeight))) acc) []
      let uniqueResults := deduplicateResults allResults
      (applySortingOptimization uniqueResults cleanQuery limit now habit, false)

/-! ## Remote suggestions and the top-level `search` -/

/-- Hex digit for percent-encoding. -/
def hexDigit (n : Nat) : Char :=
  if n < 10 then Char.ofNat (48 + n) else Char.ofNat (55 + n)

/-- Characters `encodeURIComponent` leaves unescaped. -/
def uriUnreserved (c : Char) : Bool :=
  c.isAlphanum || c ∈ ['-', '_', '.', '!', '~', '*', Char.ofNat 39, '(', ')']

/-- Models the JS global `encodeURIComponent` for ASCII inputs. -/
def encodeURIComponent (s : String) : String :=
  ⟨s.data.flatMap fun c =>
    if uriUnreserved c then [c]
    else ['%', hexDigit (c.toNat / 16), hexDigit (c.toNat % 16)]⟩

/-- `SearchEngine.getGoogleSuggestions` (lines 487-509) applied to the
parsed network response (`none` models a failed fetch, a non-ok status
or a thrown error, all of which yield `[]`): keeps truthy suggestions
whose trimmed lower-cased text differs from the lower-cased query, at
most 5. -/
def getGoogleSuggestions (query : String) (response : Option (List String)) :
    List String :=
  match response with
  | none => []
  | some suggestions =>
    (suggestions.filter fun s => s ≠ "" && toLower (trim s) ≠ toLower query).take 5

/-- The suggestion-merging loop of `SearchEngine.search` (lines 216-229):
each suggestion different from the cleaned query becomes a
`suggestion`-type result with score `10 + (length - index)`. -/
def suggestionResults (cleanQuery : String) (googleSuggestions : List String) :
    List SearchResult :=
  googleSuggestions.enum.filterMap fun p =>
    if p.2 ≠ cleanQuery then
      some { id := "suggestion-" ++ toString p.1
             type := .suggestion
             title := p.2
             url := "https://www.google.com/search?q=" ++ encodeURIComponent p.2
             suggestion := some p.2
             score := 10 + ((googleSuggestions.length : Int) - (p.1 : Int)) }
    else none

/-- `SearchEngine.search` (lines 193-239): empty or short queries return
`[]`; otherwise local results and remote suggestions are merged, sorted
by score descending and truncated to `limit`.  The second component
reports whether the not-initialized warning was logged by `searchLocal`.
(The `catch` fallback is unreachable in this model: both branches of the
`Promise.all` are total.) -/
def search (st : EngineState) (query : String) (limit : Nat)
    (fuse : FuseOracle) (response : Option (List String)) (now : Int)
    (habit : String → Nat) : List SearchResult × Bool :=
  if trim query = "" then ([], false)
  else
    let cleanQuery := trim query
    if strLen cleanQuery < MIN_QUERY_LENGTH then ([], false)
    else
      let localRun := searchLocal st cleanQuery limit fuse now habit
      let googleSuggestions := getGoogleSuggestions cleanQuery response
      let allResults := localRun.1 ++ suggestionResults cleanQuery googleSuggestions
      ((sortBy (fun a b => decide (b.score ≤ a.score)) allResults).take limit,
       localRun.2)

/-! ## Concrete scenario used by witnesses -/

/-- A one-tab indexed document for concrete witness scenarios. -/
def witnessDoc : IndexDocument :=
  { id := "tab-1", title := "GitHub", url := "https://github.com/",
    type := .tab, searchText := createSearchText "GitHub" "https://github.com/" }

/-- An initialized engine holding just `witnessDoc`. -/
def witnessState : EngineState :=
  { documents := [witnessDoc], isInitialized := true }

/-- A fuse oracle returning every indexed document with weight 50. -/
def witnessFuse : FuseOracle :=
  fun docs _ _ => docs.map fun d => (d, 50)

/-- The suggestion-type result the witness scenario produces. -/
def witnessSuggestionResult : SearchResult :=
  { id := "suggestion-0", type := .suggestion, title := "github desktop",
    url := "https://www.google.com/search?q=github%20desktop", score := 11,
    suggestion := some "github desktop" }

/-- The tab-type result the witness scenario produces. -/
def witnessTabResult : SearchResult :=
  { id := "tab-1", type := .tab, title := "GitHub",
    url := "https://github.com/", score := 79320 }

/-! ## Query session coordinator (`RxSearchManager`, `search-api.ts`) -/

/-- The coordinator's mutable fields (`currentQuery`, `searchSequence`)
plus the identity of the inner observable `switchMap` is currently
subscribed to (`none` when the last inner has completed or none was
started). -/
structure RxState where
  currentQuery : String
  searchSequence : Nat
  activeInner : Option Nat
deriving DecidableEq, Repr

/-- One `{query, results, sequence}` tuple emitted to the subscriber. -/
structure Delivery where
  query : String
  results : List SearchResult
  sequence : Nat
deriving DecidableEq, Repr

/-- The event-loop events of the search stream: `promote q` is a query
passing `debounceTime`/`distinctUntilChanged` and entering `switchMap`'s
project function (which increments `searchSequence`, records
`currentQuery` and starts a new inner observable, unsubscribing the
previous one); `innerResolve s results` is the completion of the inner
task that was tagged with sequence `s`. -/
inductive RxEvent where
  | promote (query : String)
  | innerResolve (sequence : Nat) (results : List SearchResult)

/-- One step of the `setupSearchStream` pipeline (`search-api.ts` lines
284-332).  An inner task's emission reaches the subscriber only while
`switchMap` is still subscribed to it; on emission the inner applies the
source's staleness check (`currentQuery === query && sequence ===
this.searchSequence`), returning the stale-empty tuple otherwise. -/
def rxStep (st : RxState) : RxEvent → RxState × Option Delivery
  | .promote q =>
    let seq := st.searchSequence + 1
    ({ currentQuery := q, searchSequence := seq, activeInner := some seq }, none)
  | .innerResolve s results =>
    if st.activeInner = some s then
      -- no promote has happened since this inner started, so the query it
      -- captured is `st.currentQuery`
      let d :=
        if s = st.searchSequence then
          { query := st.currentQuery, results := results, sequence := s }
        else
          { query := st.currentQuery, results := [], sequence := st.searchSequence }
      ({ st with activeInner := none }, some d)
    else (st, none)

/-- Runs a list of events, collecting the emitted deliveries in order. -/
def rxRun (st : RxState) : List RxEvent → RxState × List Delivery
  | [] => (st, [])
  | e :: rest =>
    let step := rxStep st e
    let next := rxRun step.1 rest
    (next.1, step.2.toList ++ next.2)

/-- The constructor state of `RxSearchManager`. -/
def rxInit : RxState :=
  { currentQuery := "", searchSequence := 0, activeInner := none }

/-! ## Claim C8: domain extraction -/

/-- C8: `extractMainDomain` maps `"https://sub.example.co.uk/path"` to
`"example.co.uk"`; on URL parse failure (e.g. `"not a url"`) it returns
the input unchanged; for parseable URLs whose hostname has at least two
labels it returns the last two labels, except that a second-level label
from the compound list with at least three labels present yields the
last three labels. -/
theorem c8_extractMainDomain_registrable_domain :
    extractMainDomain "https://sub.example.co.uk/path" = "example.co.uk"
    ∧ (∀ url : String, parseHostname url = none → extractMainDomain url = url)
    ∧ (∀ (url host : String) (parts : List String), parseHostname url = some host →
        parts = splitOnChar '.' (toLower host) →
        2 ≤ parts.length →
        ¬ (3 ≤ parts.length ∧ parts.getD (parts.length - 2) "" ∈ commonSecondLevelDomains) →
        extractMainDomain url =
          parts.getD (parts.length - 2) "" ++ "." ++ parts.getD (parts.length - 1) "")
    ∧ (∀ (url host : String) (parts : List String), parseHostname url = some host →
        parts = splitOnChar '.' (toLower host) →
        3 ≤ parts.length →
        parts.getD (parts.length - 2) "" ∈ commonSecondLevelDomains →
        extractMainDomain url =
          parts.getD (parts.length - 3) "" ++ "." ++ parts.getD (parts.length - 2) ""
            ++ "." ++ parts.getD (parts.length - 1) "") := by
  refine ⟨by decide, ?_, ?_, ?_⟩
  · intro url h
    simp [extractMainDomain, h]
  · intro url host parts h hp h2 h3
    subst hp
    simp only [extractMainDomain, h]
    rw [if_pos h2, if_neg h3]
  · intro url host parts h hp h3 hdom
    subst hp
    simp only [extractMainDomain, h]
    rw [if_pos (by omega : 2 ≤ (splitOnChar '.' (toLower host)).length),
      if_pos ⟨h3, hdom⟩]

/-- Witness for C8 at concrete URLs of each shape. -/
theorem c8_extractMainDomain_registrable_domain_witness :
    (parseHostname "https://www.example.com/x" = some "www.example.com"
      ∧ extractMainDomain "https://www.example.com/x" = "example.com")
    ∧ (parseHostname "not a url" = none ∧ extractMainDomain "not a url" = "not a url")
    ∧ (parseHostname "https://sub.example.co.uk/path" = some "sub.example.co.uk"
      ∧ extractMainDomain "https://sub.example.co.uk/path" = "example.co.uk") := by
  refine ⟨⟨by decide, ?_⟩, ⟨by decide, ?_⟩, ⟨by decide, ?_⟩⟩
  · exact c8_extractMainDomain_registrable_domain.2.2.1 _ "www.example.com" _
      (by decide) rfl (by decide) (by decide)
  · exact c8_extractMainDomain_registrable_domain.2.1 _ (by decide)
  · exact c8_extractMainDomain_registrable_domain.2.2.2 _ "sub.example.co.uk" _
      (by decide) rfl (by decide) (by decide)

/-! ## Claim C5: query variants -/

/-- C5: for every cleaned query of length ≥ 2, the query variants the
local search runs (with their boosts) are exactly the ones the spec
lists. -/
theorem c5_query_variants_match_spec (q : String)
    (hq : MIN_QUERY_LENGTH ≤ strLen q) :
    (searchStrategies q).map (fun s => (s.q, s.boost)) = specQueryVariants q := by
  simp only [searchStrategies, specQueryVariants, List.map_append, List.map_map,
    List.map_cons, List.map_nil, MIN_QUERY_LENGTH]
  rfl

/-- Witness for C5 at the query `"github ac x"`. -/
theorem c5_query_variants_match_spec_witness :
    MIN_QUERY_LENGTH ≤ strLen "github ac x"
    ∧ (searchStrategies "github ac x").map (fun s => (s.q, s.boost))
      = specQueryVariants "github ac x" :=
  ⟨by decide, c5_query_variants_match_spec "github ac x" (by decide)⟩

/-! ## Claim C3: the tie-band comparator -/

/-- C3 (code bug): inside the 10-point tie band the comparator was meant
to order types `tab, bookmark, history, suggestion` (its own `typeOrder`
literal assigns `tab: 0`), but it reads the priority as
`typeOrder[a.type] || 999`, and `0` is falsy in JS, so a tab's priority
becomes `999` and a tab sorts after a bookmark with an equal adjusted
score: on two results with adjusted scores both 470 (tie band), no title
match, the bookmark is placed first. -/
theorem c3_tie_band_type_order_bug :
    (applySortingOptimization
      [{ id := "tab-1", type := .tab, title := "AAAA", url := "", score := 300 },
       { id := "bookmark-1", type := .bookmark, title := "BBBB", url := "", score := 350 }]
      "zz" 10 0 (fun _ => 0)).map (fun r => (r.id, r.score))
    = [("bookmark-1", 470), ("tab-1", 470)] := by decide

/-! ## Claim C1: rebuild failure leaves the previous generation intact -/

/-- C1: when the source fetch of `buildIndex` fails, the failure is
reported to the caller, the engine state (document set, compiled index,
initialization flag) is exactly the previous generation, and a
subsequent `search` returns the very results the previous generation
returns. -/
theorem c1_build_failure_preserves_generation (st : EngineState)
    (e nowStr query : String) (limit : Nat) (fuse : FuseOracle)
    (response : Option (List String)) (now : Int) (habit : String → Nat) :
    (buildIndex st (.error e) nowStr).1 = st
    ∧ (buildIndex st (.error e) nowStr).2 = some e
    ∧ search (buildIndex st (.error e) nowStr).1 query limit fuse response now habit
      = search st query limit fuse response now habit :=
  ⟨rfl, rfl, rfl⟩

/-! ## Claim C2: only the latest query's result is delivered -/

theorem rxRun_append (st : RxState) (l1 l2 : List RxEvent) :
    rxRun st (l1 ++ l2)
    = ((rxRun (rxRun st l1).1 l2).1,
       (rxRun st l1).2 ++ (rxRun (rxRun st l1).1 l2).2) := by
  induction l1 generalizing st with
  | nil => simp [rxRun]
  | cons e rest ih =>
    simp only [List.cons_append, rxRun]
    rw [show rest.append l2 = rest ++ l2 from rfl, ih]
    simp [List.append_assoc]

theorem rxRun_promotes (qs : List String) (st : RxState) :
    rxRun st (qs.map RxEvent.promote)
    = ({ currentQuery := qs.getLastD st.currentQuery,
         searchSequence := st.searchSequence + qs.length,
         activeInner := match qs with
                        | [] => st.activeInner
                        | _ :: _ => some (st.searchSequence + qs.length) }, []) := by
  induction qs generalizing st with
  | nil => simp [rxRun]
  | cons q rest ih =>
    simp only [List.map_cons, rxRun, rxStep]
    rw [ih]
    cases rest with
    | nil => simp [List.getLastD]
    | cons r rest2 =>
      simp only [List.getLastD_cons, List.length_cons]
      have h2 : st.searchSequence + 1 + (rest2.length + 1)
          = st.searchSequence + (rest2.length + 1 + 1) := by omega
      rw [h2]
      simp

theorem rxRun_promotes_ne (qs : List String) (st : RxState) (h : qs ≠ []) :
    rxRun st (qs.map RxEvent.promote)
    = ({ currentQuery := qs.getLastD st.currentQuery,
         searchSequence := st.searchSequence + qs.length,
         activeInner := some (st.searchSequence + qs.length) }, []) := by
  cases qs with
  | nil => exact absurd rfl h
  | cons q rest => rw [rxRun_promotes]

theorem rxStep_resolve_hit (q : String) (n : Nat) (r : List SearchResult) :
    rxStep { currentQuery := q, searchSequence := n, activeInner := some n }
      (.innerResolve n r)
    = ({ currentQuery := q, searchSequence := n, activeInner := none },
       some { query := q, results := r, sequence := n }) := by
  simp [rxStep]

theorem rxStep_resolve_miss (q : String) (n s : Nat) (r : List SearchResult)
    (h : s ≠ n) :
    rxStep { currentQuery := q, searchSequence := n, activeInner := some n }
      (.innerResolve s r)
    = ({ currentQuery := q, searchSequence := n, activeInner := some n }, none) := by
  have : ¬ ((some n : Option Nat) = some s) := by
    intro he
    exact h (Option.some.inj he).symm
  simp [rxStep, this]

theorem rxRun_resolves_inactive (rs : List (Nat × List SearchResult))
    (st : RxState) (h : st.activeInner = none) :
    rxRun st (rs.map fun p => RxEvent.innerResolve p.1 p.2) = (st, []) := by
  induction rs with
  | nil => simp [rxRun]
  | cons p rest ih => simp [rxRun, rxStep, h, ih]

theorem rxRun_resolves_active (rs : List (Nat × List SearchResult))
    (q : String) (n : Nat) :
    rxRun { currentQuery := q, searchSequence := n, activeInner := some n }
      (rs.map fun p => RxEvent.innerResolve p.1 p.2)
    = (match rs.find? (fun p => decide (p.1 = n)) with
       | some p => ({ currentQuery := q, searchSequence := n, activeInner := none },
                    [{ query := q, results := p.2, sequence := n }])
       | none => ({ currentQuery := q, searchSequence := n, activeInner := some n }, [])) := by
  induction rs with
  | nil => simp [rxRun, List.find?_nil]
  | cons p rest ih =>
    obtain ⟨s, r⟩ := p
    by_cases h : s = n
    · subst h
      simp only [List.map_cons, rxRun]
      rw [rxStep_resolve_hit, rxRun_resolves_inactive rest _ rfl]
      rw [List.find?_cons_of_pos _ (by simp)]
      simp
    · simp only [List.map_cons, rxRun]
      rw [rxStep_resolve_miss q n s r h]
      rw [List.find?_cons_of_neg _ (by simpa using h)]
      simpa using ih

/-- C2: if queries `q1, ..., qk` are all submitted (promoted into the
stream) before any inner search task resolves, then whatever order the
resolutions later arrive in, the only tuple ever delivered to the
subscriber is the one whose sequence number is the latest (`k`) carrying
the latest query, delivered at most once; every delivered tuple has the
latest sequence number and the latest query. -/
theorem c2_sequencing_latest_only (qs : List String)
    (rs : List (Nat × List SearchResult)) (hqs : qs ≠ []) :
    (rxRun rxInit (qs.map RxEvent.promote
        ++ rs.map fun p => RxEvent.innerResolve p.1 p.2)).2
      = (match rs.find? (fun p => decide (p.1 = qs.length)) with
         | some p => [{ query := qs.getLastD "", results := p.2, sequence := qs.length }]
         | none => [])
    ∧ ∀ d ∈ (rxRun rxInit (qs.map RxEvent.promote
        ++ rs.map fun p => RxEvent.innerResolve p.1 p.2)).2,
        d.sequence = qs.length ∧ d.query = qs.getLastD "" := by
  have hchar : (rxRun rxInit (qs.map RxEvent.promote
      ++ rs.map fun p => RxEvent.innerResolve p.1 p.2)).2
      = (match rs.find? (fun p => decide (p.1 = qs.length)) with
         | some p => [{ query := qs.getLastD "", results := p.2, sequence := qs.length }]
         | none => []) := by
    rw [rxRun_append, rxRun_promotes_ne qs rxInit hqs]
    simp only [rxInit, Nat.zero_add]
    rw [rxRun_resolves_active]
    cases hf : rs.find? (fun p => decide (p.1 = qs.length)) with
    | none => simp
    | some p => simp
  refine ⟨hchar, ?_⟩
  intro d hd
  rw [hchar] at hd
  cases hf : rs.find? (fun p => decide (p.1 = qs.length)) with
  | none => rw [hf] at hd; simp at hd
  | some p =>
    rw [hf] at hd
    simp only [List.mem_singleton] at hd
    subst hd
    exact ⟨rfl, rfl⟩

/-- Witness for C2: three queries promoted, then out-of-order
resolutions for sequences 1, 3 and 2 — only sequence 3's results are
delivered, tagged with the last query. -/
theorem c2_sequencing_latest_only_witness :
    (["a", "ab", "abc"] ≠ ([] : List String))
    ∧ ((rxRun rxInit (["a", "ab", "abc"].map RxEvent.promote
        ++ [((1 : Nat), ([] : List SearchResult)), (3, []), (2, [])].map
            fun p => RxEvent.innerResolve p.1 p.2)).2
      = (match [((1 : Nat), ([] : List SearchResult)), (3, []), (2, [])].find?
            (fun p => decide (p.1 = (["a", "ab", "abc"] : List String).length)) with
         | some p => [{ query := (["a", "ab", "abc"] : List String).getLastD "",
                        results := p.2, sequence := (["a", "ab", "abc"] : List String).length }]
         | none => [])
      ∧ ∀ d ∈ (rxRun rxInit (["a", "ab", "abc"].map RxEvent.promote
          ++ [((1 : Nat), ([] : List SearchResult)), (3, []), (2, [])].map
              fun p => RxEvent.innerResolve p.1 p.2)).2,
          d.sequence = (["a", "ab", "abc"] : List String).length
          ∧ d.query = (["a", "ab", "abc"] : List String).getLastD "") :=
  ⟨by decide, c2_sequencing_latest_only ["a", "ab", "abc"]
    [(1, []), (3, []), (2, [])] (by decide)⟩

/-! ## Claim C6: search before initialization -/

theorem suggestionResults_mem_type {q : String} {gs : List String}
    {r : SearchResult} (h : r ∈ suggestionResults q gs) :
    r.type = ResultType.suggestion := by
  simp only [suggestionResults, List.mem_filterMap] at h
  obtain ⟨p, _, he⟩ := h
  by_cases hc : p.2 ≠ q
  · rw [if_pos hc] at he
    cases he
    rfl
  · rw [if_neg hc] at he
    cases he

/-- C6 counterexample: with the index not yet initialized and the remote
suggestion source returning `["github desktop"]`, `search "github"`
returns a one-element list, not the empty list the claim states. -/
theorem c6_counterexample_not_empty :
    ((search { documents := [], isInitialized := false } "github" 10
      (fun _ _ _ => []) (some ["github desktop"]) 0 (fun _ => 0)).1).length = 1 := by
  decide

/-- C6 (amended): if `search` runs with a query of length ≥ 2 before any
successful `buildIndex`, the not-initialized warning is logged, the
local search contributes nothing — every returned result is a remote
`suggestion`-type result — and the list is empty whenever the remote
suggestion source yields nothing; `search` does not throw. -/
theorem c6_uninitialized_search_suggestions_only (st : EngineState)
    (query : String) (limit : Nat) (fuse : FuseOracle)
    (response : Option (List String)) (now : Int) (habit : String → Nat)
    (hinit : st.isInitialized = false)
    (hlen : MIN_QUERY_LENGTH ≤ strLen (trim query)) :
    (search st query limit fuse response now habit).2 = true
    ∧ (∀ r ∈ (search st query limit fuse response now habit).1,
        r.type = ResultType.suggestion)
    ∧ (response = none → (search st query limit fuse response now habit).1 = []) := by
  have hne : trim query ≠ "" := by
    intro h
    rw [h] at hlen
    simp [strLen, MIN_QUERY_LENGTH] at hlen
  have hsl : searchLocal st (trim query) limit fuse now habit = ([], true) := by
    simp [searchLocal, hinit]
  simp only [search, if_neg hne]
  rw [if_neg (Nat.not_lt.mpr hlen), hsl]
  refine ⟨rfl, ?_, ?_⟩
  · intro r hr
    have hr2 := List.mem_of_mem_take hr
    rw [mem_sortBy] at hr2
    simp only [List.nil_append] at hr2
    exact suggestionResults_mem_type hr2
  · intro hresp
    subst hresp
    simp [suggestionResults, getGoogleSuggestions, sortBy, List.take_nil]

/-- Witness for C6 (amended) at the counterexample's concrete inputs. -/
theorem c6_uninitialized_search_suggestions_only_witness :
    ({ documents := [], isInitialized := false } : EngineState).isInitialized = false
    ∧ MIN_QUERY_LENGTH ≤ strLen (trim "github")
    ∧ ((search { documents := [], isInitialized := false } "github" 10
        (fun _ _ _ => []) (some ["github desktop"]) 0 (fun _ => 0)).2 = true
      ∧ (∀ r ∈ (search { documents := [], isInitialized := false } "github" 10
          (fun _ _ _ => []) (some ["github desktop"]) 0 (fun _ => 0)).1,
          r.type = ResultType.suggestion)
      ∧ ((some ["github desktop"] : Option (List String)) = none →
          (search { documents := [], isInitialized := false } "github" 10
            (fun _ _ _ => []) (some ["github desktop"]) 0 (fun _ => 0)).1 = [])) :=
  ⟨rfl, by decide,
    c6_uninitialized_search_suggestions_only _ "github" 10 _ _ 0 _ rfl (by decide)⟩

/-! ## Claim C7: which raw records become documents -/

theorem jsOrElse_untitled_ne_empty (o : Option String) :
    jsOrElse o "Untitled" ≠ "" := by
  cases o with
  | none => simp [jsOrElse]
  | some s =>
    simp only [jsOrElse]
    by_cases h : s = ""
    · simp [h]
    · simpa [h] using h

theorem mem_traverseBookmarks (nodes : List RawBookmarkNode)
    (n : RawBookmarkNode) (hn : n ∈ allBookmarkNodes nodes)
    (hurl : jsTruthyStr n.nodeUrl = true) :
    ({ id := n.nodeId, title := jsOrElse n.nodeTitle "Untitled",
       url := n.nodeUrl.getD "" } : BookmarkData) ∈ traverseBookmarks nodes := by
  refine traverseBookmarks.induct
    (fun node => ∀ m : RawBookmarkNode, m ∈ allNodesOfBookmark node →
      jsTruthyStr m.nodeUrl = true →
      ({ id := m.nodeId, title := jsOrElse m.nodeTitle "Untitled",
         url := m.nodeUrl.getD "" } : BookmarkData) ∈ traverseBookmarkNode node)
    (fun ns => ∀ m : RawBookmarkNode, m ∈ allBookmarkNodes ns →
      jsTruthyStr m.nodeUrl = true →
      ({ id := m.nodeId, title := jsOrElse m.nodeTitle "Untitled",
         url := m.nodeUrl.getD "" } : BookmarkData) ∈ traverseBookmarks ns)
    ?_ ?_ ?_ nodes n hn hurl
  · intro i t u c ihc m hm hu
    simp only [allNodesOfBookmark, List.mem_cons] at hm
    simp only [traverseBookmarkNode, List.mem_append]
    rcases hm with hm | hm
    · subst hm
      simp only [RawBookmarkNode.nodeUrl] at hu
      rw [if_pos hu]
      exact Or.inl (List.mem_singleton.mpr (by
        simp [RawBookmarkNode.nodeId, RawBookmarkNode.nodeTitle, RawBookmarkNode.nodeUrl]))
    · exact Or.inr (ihc m hm hu)
  · intro m hm
    simp [allBookmarkNodes] at hm
  · intro node rest ihn ihrest m hm hu
    simp only [allBookmarkNodes, List.mem_append] at hm
    simp only [traverseBookmarks, List.mem_append]
    rcases hm with hm | hm
    · exact Or.inl (ihn m hm hu)
    · exact Or.inr (ihrest m hm hu)

theorem mem_deduplicateHistoryByDomain {maxPer : Nat} {l : List HistoryData}
    {counts : String → Nat} {h : HistoryData}
    (hm : h ∈ deduplicateHistoryByDomain maxPer l counts) : h ∈ l := by
  induction l generalizing counts with
  | nil => simpa [deduplicateHistoryByDomain] using hm
  | cons item rest ih =>
    simp only [deduplicateHistoryByDomain] at hm
    by_cases hc : counts (extractMainDomain item.url) < maxPer
    · rw [if_pos hc] at hm
      rcases List.mem_cons.mp hm with he | hm2
      · exact he ▸ List.mem_cons_self _ _
      · exact List.mem_cons_of_mem _ (ih hm2)
    · rw [if_neg hc] at hm
      exact List.mem_cons_of_mem _ (ih hm)

theorem getHistory_source {items : List RawHistoryItem} {nowStr : String}
    {h : HistoryData} (hm : h ∈ getHistory items nowStr) :
    ∃ i ∈ items, jsTruthyStr i.title = true ∧ jsTruthyStr i.url = true
      ∧ h.title = jsOrElse i.title "Untitled" ∧ h.url = i.url.getD "" := by
  simp only [getHistory] at hm
  have hm2 := mem_deduplicateHistoryByDomain hm
  rw [mem_sortBy] at hm2
  simp only [List.mem_map] at hm2
  obtain ⟨p, hp, he⟩ := hm2
  have hi := List.snd_mem_of_mem_enum hp
  rw [List.mem_filter] at hi
  refine ⟨p.2, hi.1, ?_, ?_, ?_, ?_⟩
  · exact (Bool.and_eq_true _ _ ▸ hi.2).2
  · exact (Bool.and_eq_true _ _ ▸ hi.2).1
  · rw [← he]
  · rw [← he]

/-- C7 counterexample: a fetched history record with a usable URL but no
title is silently dropped by the history fetch — `buildIndex` over a
fetch containing only that record indexes no document at all, while the
claim says it should be indexed with title `"Untitled"`. -/
theorem c7_counterexample_untitled_history_dropped :
    (buildIndex { documents := [], isInitialized := false }
      (.ok { bookmarkTree := [], tabs := [],
             history := [{ id := some "h1", title := none,
                           url := some "https://a.com", lastVisitTime := some 5,
                           visitCount := some 2 }] }) "0").1.documents = [] := by
  decide

/-- C7 (amended): during `buildIndex`, every bookmark node with a truthy
URL and every tab with a defined id and truthy URL becomes an indexed
document, with a missing title defaulting to `"Untitled"`; but a history
record is indexed only if both its URL and its title are truthy — one
lacking a title is silently dropped by the history fetch (no `"Untitled"`
default and no logging), and a tab lacking a URL is likewise dropped. -/
theorem c7_normalization_defaults_and_history_drop :
    (∀ (tree : List RawBookmarkNode) (tabs : List TabData)
        (history : List HistoryData) (n : RawBookmarkNode),
      n ∈ allBookmarkNodes tree → jsTruthyStr n.nodeUrl = true →
      ({ id := "bookmark-" ++ n.nodeId, title := jsOrElse n.nodeTitle "Untitled",
         url := n.nodeUrl.getD "", type := .bookmark,
         searchText := createSearchText (jsOrElse n.nodeTitle "Untitled")
           (n.nodeUrl.getD "") } : IndexDocument)
        ∈ buildDocuments (getBookmarks tree) tabs history)
    ∧ (∀ (bookmarks : List BookmarkData) (rawTabs : List RawTab)
        (history : List HistoryData) (t : RawTab),
      t ∈ rawTabs → t.id ≠ none → jsTruthyStr t.url = true →
      ({ id := "tab-" ++ toString (t.id.getD 0),
         title := jsOrElse t.title "Untitled", url := t.url.getD "",
         type := .tab, favicon := some (t.favIconUrl.getD "")
         searchText := createSearchText (jsOrElse t.title "Untitled")
           (t.url.getD "") } : IndexDocument)
        ∈ buildDocuments bookmarks (getTabs rawTabs) history)
    ∧ (∀ (bookmarks : List BookmarkData) (tabs : List TabData)
        (items : List RawHistoryItem) (nowStr : String) (doc : IndexDocument),
      doc ∈ buildDocuments bookmarks tabs (getHistory items nowStr) →
      doc.type = .history →
      ∃ i ∈ items, jsTruthyStr i.title = true ∧ jsTruthyStr i.url = true) := by
  refine ⟨?_, ?_, ?_⟩
  · intro tree tabs history n hn hurl
    simp only [buildDocuments, List.mem_append]
    left
    left
    rw [List.mem_map]
    exact ⟨_, mem_traverseBookmarks tree n hn hurl, rfl⟩
  · intro bookmarks rawTabs history t ht hid hurl
    simp only [buildDocuments, List.mem_append]
    left
    right
    rw [List.mem_map]
    refine ⟨{ id := toString (t.id.getD 0), title := jsOrElse t.title "Untitled",
              url := t.url.getD "", favIconUrl := t.favIconUrl }, ?_, ?_⟩
    · simp only [getTabs, List.mem_map]
      refine ⟨t, ?_, rfl⟩
      rw [List.mem_filter]
      exact ⟨ht, by simp [hid, hurl]⟩
    · simp [if_neg (jsOrElse_untitled_ne_empty t.title)]
  · intro bookmarks tabs items nowStr doc hdoc htype
    simp only [buildDocuments, List.mem_append] at hdoc
    rcases hdoc with (hb | htab) | hh
    · rw [List.mem_map] at hb
      obtain ⟨b, _, he⟩ := hb
      rw [← he] at htype
      cases htype
    · rw [List.mem_map] at htab
      obtain ⟨tb, _, he⟩ := htab
      rw [← he] at htype
      cases htype
    · rw [List.mem_map] at hh
      obtain ⟨h, hmem, _⟩ := hh
      obtain ⟨i, hi, h1, h2, _, _⟩ := getHistory_source hmem
      exact ⟨i, hi, h1, h2⟩

/-- Witness for C7 (amended) at a one-node bookmark tree, a one-tab list
and a history fetch. -/
theorem c7_normalization_defaults_and_history_drop_witness :
    ((RawBookmarkNode.mk "b1" none (some "https://a.com") []
        ∈ allBookmarkNodes [RawBookmarkNode.mk "b1" none (some "https://a.com") []])
      ∧ jsTruthyStr (RawBookmarkNode.mk "b1" none (some "https://a.com") []).nodeUrl = true
      ∧ ({ id := "bookmark-b1", title := "Untitled", url := "https://a.com",
           type := .bookmark,
           searchText := createSearchText "Untitled" "https://a.com" } : IndexDocument)
        ∈ buildDocuments
            (getBookmarks [RawBookmarkNode.mk "b1" none (some "https://a.com") []]) [] [])
    ∧ (({ id := some 7, title := none, url := some "https://t.com" } : RawTab)
          ∈ [({ id := some 7, title := none, url := some "https://t.com" } : RawTab)]
      ∧ ({ id := "tab-7", title := "Untitled", url := "https://t.com", type := .tab,
           favicon := some "", searchText := createSearchText "Untitled" "https://t.com" }
          : IndexDocument)
        ∈ buildDocuments []
            (getTabs [({ id := some 7, title := none, url := some "https://t.com" } : RawTab)]) []) := by
  have h1 := c7_normalization_defaults_and_history_drop.1
    [RawBookmarkNode.mk "b1" none (some "https://a.com") []] [] []
    (RawBookmarkNode.mk "b1" none (some "https://a.com") [])
    (by simp [allBookmarkNodes, allNodesOfBookmark]) (by decide)
  have h2 := c7_normalization_defaults_and_history_drop.2.1
    [] [({ id := some 7, title := none, url := some "https://t.com" } : RawTab)] []
    ({ id := some 7, title := none, url := some "https://t.com" } : RawTab)
    (by simp) (by decide) (by decide)
  exact ⟨⟨by simp [allBookmarkNodes, allNodesOfBookmark], by decide, h1⟩, ⟨by simp, h2⟩⟩

/-! ## Shared lemmas: score bounds along the local pipeline -/

theorem titleScore_nonneg (q t : String) : 0 ≤ titleScore q t := by
  unfold titleScore
  split_ifs <;> omega

theorem wordFold_le (qw : String) (tws : List String) (s : Int) :
    s ≤ tws.foldl (fun s2 tw => if tw = qw then s2 + 40
      else if strIncludes tw qw then s2 + 20 else s2) s := by
  induction tws generalizing s with
  | nil => simp
  | cons t ts ih =>
    simp only [List.foldl_cons]
    refine le_trans ?_ (ih _)
    split_ifs <;> omega

theorem wordMatchFold_le (qws tws : List String) (s : Int) :
    s ≤ qws.foldl (fun s2 qw => tws.foldl (fun s3 tw => if tw = qw then s3 + 40
      else if strIncludes tw qw then s3 + 20 else s3) s2) s := by
  induction qws generalizing s with
  | nil => simp
  | cons q qs ih =>
    simp only [List.foldl_cons]
    exact le_trans (wordFold_le q tws s) (ih _)

theorem wordMatchScore_nonneg (qws tws : List String) :
    0 ≤ wordMatchScore qws tws :=
  wordMatchFold_le qws tws 0

theorem historyVisitScore_nonneg (vc : Option Int) : 0 ≤ historyVisitScore vc := by
  unfold historyVisitScore
  cases vc with
  | none => simp
  | some v =>
    simp only
    split_ifs with h
    · rw [min_def]; split_ifs <;> omega
    · omega

theorem historyRecencyScore_nonneg (t : Option Int) (now : Int) :
    0 ≤ historyRecencyScore t now := by
  unfold historyRecencyScore
  cases t with
  | none => simp
  | some v => simp only; split_ifs <;> omega

theorem typeScore_ge_five (doc : IndexDocument) (now : Int) :
    5 ≤ typeScore doc now := by
  unfold typeScore
  cases h : doc.type with
  | tab => norm_num
  | bookmark => norm_num
  | history =>
    show 5 ≤ historyVisitScore doc.visitCount
      + historyRecencyScore doc.lastVisitTime now + 5
    have h1 := historyVisitScore_nonneg doc.visitCount
    have h2 := historyRecencyScore_nonneg doc.lastVisitTime now
    omega

theorem urlContainsScore_nonneg (u q : String) : 0 ≤ urlContainsScore u q := by
  unfold urlContainsScore; split_ifs <;> omega

theorem searchTextContainsScore_nonneg (st q : String) :
    0 ≤ searchTextContainsScore st q := by
  unfold searchTextContainsScore; split_ifs <;> omega

theorem hostContainsScore_nonneg (u q : String) : 0 ≤ hostContainsScore u q := by
  unfold hostContainsScore
  cases parseHostname u with
  | none => simp
  | some d => simp only; split_ifs <;> omega

theorem calculateScore_ge (query : String) (doc : IndexDocument)
    (boost now : Int) (hb : 60 ≤ boost) :
    300 ≤ calculateScore query doc boost now := by
  simp only [calculateScore]
  have hA := titleScore_nonneg (toLower query) (toLower doc.title)
  have hB := wordMatchScore_nonneg
    ((jsSplitWs (toLower query)).filter fun w => 1 < strLen w)
    (jsSplitWs (toLower doc.title))
  have hC := urlContainsScore_nonneg (toLower doc.url) (toLower query)
  have hD := searchTextContainsScore_nonneg (toLower doc.searchText) (toLower query)
  have hE := typeScore_ge_five doc now
  have hF := hostContainsScore_nonneg doc.url (toLower query)
  nlinarith

theorem strategies_boost_ge (q : String) :
    ∀ s ∈ searchStrategies q, 60 ≤ s.boost := by
  intro s hs
  simp only [searchStrategies, List.mem_append, List.mem_cons, List.mem_map] at hs
  rcases hs with ((h | h | h) | ⟨w, _, h⟩) | ⟨w, _, h⟩
  · subst h; norm_num
  · subst h; norm_num
  · exact absurd h (List.not_mem_nil s)
  · subst h; norm_num
  · subst h; norm_num

theorem toSearchResult_type_ne (doc : IndexDocument) (s : Int) :
    (toSearchResult doc s).type ≠ ResultType.suggestion := by
  simp only [toSearchResult, DocType.toResultType]
  cases doc.type <;> simp

/-! ## Shared lemmas: the result-accumulation fold -/

theorem forall_mem_upsertResult {P : SearchResult → Prop}
    (acc : List SearchResult) (r : SearchResult)
    (hacc : ∀ x ∈ acc, P x) (hr : P r) :
    ∀ x ∈ upsertResult acc r, P x := by
  intro x hx
  unfold upsertResult at hx
  split_ifs at hx
  · rw [List.mem_map] at hx
    obtain ⟨y, hy, he⟩ := hx
    by_cases hc : y.id = r.id ∧ y.score < r.score
    · rw [if_pos hc] at he
      exact he ▸ hr
    · rw [if_neg hc] at he
      exact he ▸ hacc y hy
  · rcases List.mem_append.mp hx with h | h
    · exact hacc x h
    · rw [List.mem_singleton] at h
      exact h ▸ hr

theorem forall_mem_foldl_upsert {P : SearchResult → Prop}
    (g : IndexDocument × Nat → SearchResult)
    (hits : List (IndexDocument × Nat)) (acc : List SearchResult)
    (hacc : ∀ x ∈ acc, P x) (hg : ∀ h, P (g h)) :
    ∀ x ∈ hits.foldl (fun a h => upsertResult a (g h)) acc, P x := by
  induction hits generalizing acc with
  | nil => exact hacc
  | cons h hs ih =>
    simp only [List.foldl_cons]
    exact ih _ (forall_mem_upsertResult acc (g h) hacc (hg h))

theorem forall_mem_foldl_restricted {α β : Type} {P : α → Prop}
    (f : List α → β → List α) (l : List β) (R : β → Prop)
    (hl : ∀ b ∈ l, R b)
    (hf : ∀ acc b, R b → (∀ x ∈ acc, P x) → ∀ x ∈ f acc b, P x)
    (acc : List α) (hacc : ∀ x ∈ acc, P x) :
    ∀ x ∈ l.foldl f acc, P x := by
  induction l generalizing acc with
  | nil => exact hacc
  | cons b bs ih =>
    simp only [List.foldl_cons]
    exact ih (fun b' hb' => hl b' (List.mem_cons_of_mem _ hb'))
      _ (hf acc b (hl b (List.mem_cons_self _ _)) hacc)

/-! ## Shared lemmas: deduplication -/

theorem mem_dedupDomainGo {maxPer : Nat} {l : List SearchResult}
    {seen : List String} {counts : String → Nat} {x : SearchResult}
    (h : x ∈ dedupDomainGo maxPer l seen counts) : x ∈ l := by
  induction l generalizing seen counts with
  | nil => simpa [dedupDomainGo] using h
  | cons r rest ih =>
    simp only [dedupDomainGo] at h
    split_ifs at h with h1 h2
    · exact List.mem_cons_of_mem _ (ih h)
    · rcases List.mem_cons.mp h with he | hm
      · exact he ▸ List.mem_cons_self _ _
      · exact List.mem_cons_of_mem _ (ih hm)
    · exact List.mem_cons_of_mem _ (ih h)

theorem mem_dedupById {l : List SearchResult} {seen : List String}
    {x : SearchResult} (h : x ∈ dedupById l seen) : x ∈ l := by
  induction l generalizing seen with
  | nil => simpa [dedupById] using h
  | cons r rest ih =>
    simp only [dedupById] at h
    split_ifs at h with h1
    · exact List.mem_cons_of_mem _ (ih h)
    · rcases List.mem_cons.mp h with he | hm
      · exact he ▸ List.mem_cons_self _ _
      · exact List.mem_cons_of_mem _ (ih hm)

theorem mem_dedupTypeGroup {results : List SearchResult} {t : ResultType}
    {x : SearchResult} (h : x ∈ dedupTypeGroup results t) :
    x ∈ results ∧ x.type = t := by
  have hf : x ∈ results.filter (fun r => r.type = t) → x ∈ results ∧ x.type = t := by
    intro hx
    have := List.mem_filter.mp hx
    exact ⟨this.1, by simpa using this.2⟩
  unfold dedupTypeGroup deduplicateResultsByDomain at h
  cases t with
  | history => exact hf (mem_sortBy.mp (mem_dedupDomainGo h))
  | bookmark => exact hf (mem_sortBy.mp (mem_dedupDomainGo h))
  | tab => exact hf (mem_dedupById h)
  | suggestion => exact hf (mem_dedupById h)

theorem mem_deduplicateResults {results : List SearchResult}
    {x : SearchResult} (h : x ∈ deduplicateResults results) : x ∈ results := by
  unfold deduplicateResults at h
  rw [if_neg (by simp [DOMAIN_DEDUPLICATION_ENABLED])] at h
  rw [List.mem_flatMap] at h
  obtain ⟨t, _, hx⟩ := h
  exact (mem_dedupTypeGroup hx).1

theorem countP_dedupDomainGo (maxPer : Nat) (l : List SearchResult)
    (seen : List String) (counts : String → Nat) (d : String) :
    (dedupDomainGo maxPer l seen counts).countP
      (fun r => decide (extractMainDomain r.url = d)) ≤ maxPer - counts d := by
  induction l generalizing seen counts with
  | nil => simp [dedupDomainGo]
  | cons r rest ih =>
    simp only [dedupDomainGo]
    split_ifs with h1 h2
    · exact ih _ _
    · have hih := ih (r.id :: seen)
        (fun d2 => if d2 = extractMainDomain r.url then
          counts (extractMainDomain r.url) + 1 else counts d2)
      simp only at hih
      by_cases hd : extractMainDomain r.url = d
      · rw [hd] at hih h2
        rw [if_pos rfl] at hih
        simp only [List.countP_cons, decide_eq_true_eq]
        rw [if_pos hd, hd]
        omega
      · rw [if_neg (fun he => hd he.symm)] at hih
        simp only [List.countP_cons, decide_eq_true_eq]
        rw [if_neg hd]
        omega
    · exact ih _ _

theorem countP_deduplicateResultsByDomain (results : List SearchResult)
    (maxPer : Nat) (d : String) :
    (deduplicateResultsByDomain results maxPer).countP
      (fun r => decide (extractMainDomain r.url = d)) ≤ maxPer := by
  have := countP_dedupDomainGo maxPer
    (sortBy (fun a b => decide (b.score ≤ a.score)) results) [] (fun _ => 0) d
  simpa [deduplicateResultsByDomain] using this

theorem distinctKeys_nodup (l : List ResultType) : (distinctKeys l).Nodup := by
  induction l with
  | nil => simp [distinctKeys]
  | cons t ts ih =>
    simp only [distinctKeys]
    refine List.Nodup.cons ?_ (List.Nodup.filter _ ih)
    intro hmem
    have := List.mem_filter.mp hmem
    simp at this

theorem mem_distinctKeys {l : List ResultType} {t : ResultType} :
    t ∈ distinctKeys l ↔ t ∈ l := by
  induction l with
  | nil => simp [distinctKeys]
  | cons u us ih =>
    simp only [distinctKeys, List.mem_cons, List.mem_filter]
    constructor
    · rintro (h | ⟨h, _⟩)
      · exact Or.inl h
      · exact Or.inr (ih.mp h)
    · rintro (h | h)
      · exact Or.inl h
      · by_cases he : t = u
        · exact Or.inl he
        · exact Or.inr ⟨ih.mpr h, by simpa using he⟩

theorem countP_dedupTypeGroup_ne (results : List SearchResult)
    (t tgt : ResultType) (d : String) (ht : t ≠ tgt) :
    (dedupTypeGroup results t).countP
      (fun r => decide (r.type = tgt ∧ extractMainDomain r.url = d)) = 0 := by
  rw [List.countP_eq_zero]
  intro a ha
  have := (mem_dedupTypeGroup ha).2
  simp only [decide_eq_true_eq, not_and]
  intro habs
  exact absurd (this.symm.trans habs) ht

theorem countP_dedupTypeGroup_history (results : List SearchResult) (d : String) :
    (dedupTypeGroup results ResultType.history).countP
      (fun r => decide (r.type = ResultType.history
        ∧ extractMainDomain r.url = d)) ≤ DEDUP_HISTORY_MAX_PER_DOMAIN := by
  refine le_trans (List.countP_mono_left ?_) (countP_deduplicateResultsByDomain _ _ d)
  intro x _ hx
  simp only [decide_eq_true_eq] at hx ⊢
  exact hx.2

theorem countP_dedupTypeGroup_bookmark (results : List SearchResult) (d : String) :
    (dedupTypeGroup results ResultType.bookmark).countP
      (fun r => decide (r.type = ResultType.bookmark
        ∧ extractMainDomain r.url = d)) ≤ DEDUP_BOOKMARK_MAX_PER_DOMAIN := by
  refine le_trans (List.countP_mono_left ?_) (countP_deduplicateResultsByDomain _ _ d)
  intro x _ hx
  simp only [decide_eq_true_eq] at hx ⊢
  exact hx.2

theorem countP_flatMap_no_tgt (results : List SearchResult) (d : String)
    (tgt : ResultType) (ts : List ResultType) (h : tgt ∉ ts) :
    (ts.flatMap (dedupTypeGroup results)).countP
      (fun r => decide (r.type = tgt ∧ extractMainDomain r.url = d)) = 0 := by
  induction ts with
  | nil => simp
  | cons t ts2 ih =>
    simp only [List.flatMap_cons, List.countP_append]
    rw [countP_dedupTypeGroup_ne results t tgt d
        (fun he => h (he ▸ List.mem_cons_self t ts2)),
      ih (fun hm => h (List.mem_cons_of_mem _ hm))]

theorem countP_flatMap_group_le (results : List SearchResult) (d : String)
    (tgt : ResultType) (cap : Nat)
    (hcap : (dedupTypeGroup results tgt).countP
      (fun r => decide (r.type = tgt ∧ extractMainDomain r.url = d)) ≤ cap)
    (ts : List ResultType) (hnd : ts.Nodup) :
    (ts.flatMap (dedupTypeGroup results)).countP
      (fun r => decide (r.type = tgt ∧ extractMainDomain r.url = d)) ≤ cap := by
  induction ts with
  | nil => simp
  | cons t ts2 ih =>
    obtain ⟨hnotin, hnd2⟩ := List.nodup_cons.mp hnd
    simp only [List.flatMap_cons, List.countP_append]
    by_cases ht : t = tgt
    · subst ht
      have hrest := countP_flatMap_no_tgt results d t ts2 hnotin
      omega
    · rw [countP_dedupTypeGroup_ne results t tgt d ht]
      simpa using ih hnd2

theorem countP_deduplicateResults_history (results : List SearchResult)
    (d : String) :
    (deduplicateResults results).countP
      (fun r => decide (r.type = ResultType.history
        ∧ extractMainDomain r.url = d)) ≤ DEDUP_HISTORY_MAX_PER_DOMAIN := by
  unfold deduplicateResults
  rw [if_neg (by simp [DOMAIN_DEDUPLICATION_ENABLED])]
  exact countP_flatMap_group_le results d ResultType.history _
    (countP_dedupTypeGroup_history results d) _ (distinctKeys_nodup _)

theorem countP_deduplicateResults_bookmark (results : List SearchResult)
    (d : String) :
    (deduplicateResults results).countP
      (fun r => decide (r.type = ResultType.bookmark
        ∧ extractMainDomain r.url = d)) ≤ DEDUP_BOOKMARK_MAX_PER_DOMAIN := by
  unfold deduplicateResults
  rw [if_neg (by simp [DOMAIN_DEDUPLICATION_ENABLED])]
  exact countP_flatMap_group_le results d ResultType.bookmark _
    (countP_dedupTypeGroup_bookmark results d) _ (distinctKeys_nodup _)

theorem mem_dedupById_of_nodup {l : List SearchResult} {seen : List String}
    (hnd : (l.map fun r => r.id).Nodup) (hdisj : ∀ x ∈ l, x.id ∉ seen)
    {r : SearchResult} (hr : r ∈ l) : r ∈ dedupById l seen := by
  induction l generalizing seen with
  | nil => cases hr
  | cons a as ih =>
    have hnd2 : a.id ∉ (as.map fun r => r.id) ∧ (as.map fun r => r.id).Nodup := by
      simpa [List.nodup_cons] using hnd
    simp only [dedupById]
    rw [if_neg (hdisj a (List.mem_cons_self a as))]
    rcases List.mem_cons.mp hr with he | hm
    · exact he ▸ List.mem_cons_self _ _
    · refine List.mem_cons_of_mem _ (ih hnd2.2 ?_ hm)
      intro x hx
      simp only [List.mem_cons]
      rintro (hx1 | hx2)
      · exact hnd2.1 (hx1 ▸ List.mem_map_of_mem (fun r => r.id) hx)
      · exact hdisj x (List.mem_cons_of_mem _ hx) hx2

/-! ## Shared lemmas: the second ranking pass -/

theorem adjustResult_type (q : String) (now : Int) (habit : String → Nat)
    (r : SearchResult) : (adjustResult q now habit r).type = r.type := rfl

theorem adjustResult_url (q : String) (now : Int) (habit : String → Nat)
    (r : SearchResult) : (adjustResult q now habit r).url = r.url := rfl

theorem matchBonus_nonneg (q t : String) : 0 ≤ matchBonus q t := by
  unfold matchBonus; split_ifs <;> omega

theorem domainBonus_nonneg (q u : String) : 0 ≤ domainBonus q u := by
  unfold domainBonus
  cases parseHostname u with
  | none => simp
  | some d => simp only; split_ifs <;> omega

theorem historyAdjust_nonneg (r : SearchResult) (now : Int) :
    0 ≤ historyAdjust r now := by
  unfold historyAdjust
  split_ifs with h
  · have h1 : 0 ≤ historyAdjustVisit r.visitCount := by
      unfold historyAdjustVisit
      cases r.visitCount with
      | none => simp
      | some v =>
        simp only
        split_ifs with hv
        · rw [min_def]; split_ifs <;> omega
        · omega
    have h2 : 0 ≤ historyAdjustRecency r.lastVisitTime now := by
      unfold historyAdjustRecency
      cases r.lastVisitTime with
      | none => simp
      | some t => simp only; split_ifs <;> omega
    omega
  · omega

theorem typeAdjust_ge (t : ResultType) (h : t ≠ ResultType.suggestion) :
    50 ≤ typeAdjust t := by
  cases t with
  | tab => norm_num [typeAdjust]
  | bookmark => norm_num [typeAdjust]
  | history => norm_num [typeAdjust]
  | suggestion => exact absurd rfl h

theorem titleLenAdjust_ge (t : String) : -10 ≤ titleLenAdjust t := by
  unfold titleLenAdjust; split_ifs <;> omega

theorem adjustResult_score_ge (q : String) (now : Int) (habit : String → Nat)
    (r : SearchResult) (h : r.type ≠ ResultType.suggestion) :
    r.score + 40 ≤ (adjustResult q now habit r).score := by
  simp only [adjustResult]
  have h1 := matchBonus_nonneg q (toLower r.title)
  have h2 := domainBonus_nonneg q r.url
  have h3 := typeAdjust_ge r.type h
  have h4 : (0 : Int) ≤ (getQuickUserHabitBoost habit r : Int) := by positivity
  have h5 := historyAdjust_nonneg r now
  have h6 := titleLenAdjust_ge r.title
  omega

/-! ## Shared lemmas: searchLocal output -/

theorem searchLocal_mem_bound (st : EngineState) (q : String) (limit : Nat)
    (fuse : FuseOracle) (now : Int) (habit : String → Nat) :
    ∀ r ∈ (searchLocal st q limit fuse now habit).1,
      r.type ≠ ResultType.suggestion ∧ 340 ≤ r.score := by
  intro r hr
  unfold searchLocal at hr
  by_cases h1 : st.isInitialized
  case neg =>
    rw [if_pos (by simpa using h1)] at hr
    simp at hr
  case pos =>
  rw [if_neg (by simpa using h1)] at hr
  by_cases h2 : strLen (toLower q) < MIN_QUERY_LENGTH
  case pos =>
    rw [if_pos h2] at hr
    simp at hr
  case neg =>
    rw [if_neg h2] at hr
    simp only at hr
    unfold applySortingOptimization at hr
    simp only at hr
    have hr2 := mem_sortBy.mp (List.mem_of_mem_take hr)
    rw [List.mem_map] at hr2
    obtain ⟨x, hx, he⟩ := hr2
    have hxh : x ∈ deduplicateResults ((searchStrategies (toLower q)).foldl
        (fun acc strat => (fuse st.documents strat.q (limit * 2)).foldl
          (fun acc2 hit => upsertResult acc2 (toSearchResult hit.1
            (calculateScore (toLower q) hit.1 strat.boost now + (hit.2 : Int)))) acc)
        []) := hx
    have hxm := mem_deduplicateResults hxh
    have hbase : x.type ≠ ResultType.suggestion ∧ 300 ≤ x.score := by
      refine forall_mem_foldl_restricted
        (P := fun y => y.type ≠ ResultType.suggestion ∧ 300 ≤ y.score)
        _ _ (fun s => 60 ≤ s.boost)
        (strategies_boost_ge (toLower q)) ?_ [] (by simp) x hxm
      intro acc strat hb hacc
      refine forall_mem_foldl_upsert _ _ acc hacc ?_
      intro hit
      refine ⟨toSearchResult_type_ne hit.1 _, ?_⟩
      show 300 ≤ (toSearchResult hit.1
        (calculateScore (toLower q) hit.1 strat.boost now + (hit.2 : Int))).score
      have hc := calculateScore_ge (toLower q) hit.1 strat.boost now hb
      have hw : (0 : Int) ≤ (hit.2 : Int) := Int.ofNat_nonneg _
      simp only [toSearchResult]
      omega
    constructor
    · rw [← he, adjustResult_type]
      exact hbase.1
    · rw [← he]
      have := adjustResult_score_ge (toLower (toLower q)) now habit x hbase.1
      omega

/-! ## Shared lemmas: remote suggestions -/

theorem suggestionResults_score_le {q : String} {gs : List String}
    {r : SearchResult} (h : r ∈ suggestionResults q gs) :
    r.score ≤ 10 + gs.length := by
  simp only [suggestionResults, List.mem_filterMap] at h
  obtain ⟨p, hp, he⟩ := h
  have hlt : p.1 < gs.length := (List.mem_enum hp).1
  by_cases hc : p.2 ≠ q
  · rw [if_pos hc, Option.some.injEq] at he
    subst he
    simp only
    omega
  · rw [if_neg hc] at he
    cases he

theorem suggestionResults_suggestion_spec {q : String} {gs : List String}
    {r : SearchResult} (h : r ∈ suggestionResults q gs) :
    ∃ s ∈ gs, r.suggestion = some s := by
  simp only [suggestionResults, List.mem_filterMap] at h
  obtain ⟨p, hp, he⟩ := h
  by_cases hc : p.2 ≠ q
  · rw [if_pos hc, Option.some.injEq] at he
    subst he
    exact ⟨p.2, List.snd_mem_of_mem_enum hp, rfl⟩
  · rw [if_neg hc] at he
    cases he

theorem getGoogleSuggestions_length_le (q : String)
    (response : Option (List String)) :
    (getGoogleSuggestions q response).length ≤ 5 := by
  cases response with
  | none => simp [getGoogleSuggestions]
  | some l =>
    simp only [getGoogleSuggestions, List.length_take]
    omega

theorem mem_getGoogleSuggestions {q : String} {response : Option (List String)}
    {s : String} (h : s ∈ getGoogleSuggestions q response) :
    toLower (trim s) ≠ toLower q := by
  cases response with
  | none => simp [getGoogleSuggestions] at h
  | some l =>
    simp only [getGoogleSuggestions] at h
    have := List.mem_filter.mp (List.mem_of_mem_take h)
    have h2 := this.2
    simp only [Bool.and_eq_true, decide_eq_true_eq] at h2
    simpa using h2.2

/-! ## Shared lemmas: countP through the second ranking pass -/

theorem countP_applySortingOptimization_le (results : List SearchResult)
    (q : String) (limit : Nat) (now : Int) (habit : String → Nat)
    (p : SearchResult → Bool)
    (hp : ∀ r, p (adjustResult (toLower q) now habit r) = p r) :
    (applySortingOptimization results q limit now habit).countP p
      ≤ results.countP p := by
  unfold applySortingOptimization
  simp only
  refine le_trans (List.Sublist.countP_le p (List.take_sublist _ _)) ?_
  rw [(sortBy_perm _ _).countP_eq, List.countP_map]
  exact le_of_eq (List.countP_congr fun x _ => by simp [Function.comp, hp x])

/-! ## Claim C4: per-domain caps in the deduplicated result list -/

/-- C4: with domain deduplication enabled, every local-search result list
contains at most 2 `history` results and at most 3 `bookmark` results
whose URLs share one registrable domain (the deduplicator processes
candidates sorted by score descending, so the highest-scoring ones are
the kept ones); `tab` and `suggestion` results are never domain-capped —
with distinct ids they all survive deduplication. -/
theorem c4_domain_caps (st : EngineState) (query : String) (limit : Nat)
    (fuse : FuseOracle) (now : Int) (habit : String → Nat) (d : String) :
    ((searchLocal st query limit fuse now habit).1.countP
      (fun r => decide (r.type = ResultType.history
        ∧ extractMainDomain r.url = d))) ≤ DEDUP_HISTORY_MAX_PER_DOMAIN
    ∧ ((searchLocal st query limit fuse now habit).1.countP
      (fun r => decide (r.type = ResultType.bookmark
        ∧ extractMainDomain r.url = d))) ≤ DEDUP_BOOKMARK_MAX_PER_DOMAIN
    ∧ (∀ results : List SearchResult, (results.map fun r => r.id).Nodup →
        ∀ r ∈ results, r.type = ResultType.tab ∨ r.type = ResultType.suggestion →
        r ∈ deduplicateResults results) := by
  refine ⟨?_, ?_, ?_⟩
  · unfold searchLocal
    by_cases h1 : st.isInitialized
    case neg => rw [if_pos (by simpa using h1)]; simp
    case pos =>
    rw [if_neg (by simpa using h1)]
    by_cases h2 : strLen (toLower query) < MIN_QUERY_LENGTH
    case pos => rw [if_pos h2]; simp
    case neg =>
    rw [if_neg h2]
    simp only
    exact le_trans
      (countP_applySortingOptimization_le _ _ _ _ _ _ fun r => rfl)
      (countP_deduplicateResults_history _ d)
  · unfold searchLocal
    by_cases h1 : st.isInitialized
    case neg => rw [if_pos (by simpa using h1)]; simp
    case pos =>
    rw [if_neg (by simpa using h1)]
    by_cases h2 : strLen (toLower query) < MIN_QUERY_LENGTH
    case pos => rw [if_pos h2]; simp
    case neg =>
    rw [if_neg h2]
    simp only
    exact le_trans
      (countP_applySortingOptimization_le _ _ _ _ _ _ fun r => rfl)
      (countP_deduplicateResults_bookmark _ d)
  · intro results hnd r hr htype
    unfold deduplicateResults
    rw [if_neg (by simp [DOMAIN_DEDUPLICATION_ENABLED])]
    rw [List.mem_flatMap]
    refine ⟨r.type, mem_distinctKeys.mpr (List.mem_map_of_mem _ hr), ?_⟩
    have hfmem : r ∈ results.filter fun x => x.type = r.type :=
      List.mem_filter.mpr ⟨hr, by simp⟩
    have hfnd : ((results.filter fun x => x.type = r.type).map fun x => x.id).Nodup :=
      List.Nodup.sublist (List.Sublist.map _ (List.filter_sublist _)) hnd
    rcases htype with h | h
    · rw [h] at hfmem hfnd ⊢
      exact mem_dedupById_of_nodup hfnd (by simp) hfmem
    · rw [h] at hfmem hfnd ⊢
      exact mem_dedupById_of_nodup hfnd (by simp) hfmem

/-! ## Claim C9: suggestions score strictly below real documents -/

/-- C9: in every list returned by `search`, every `suggestion`-type
result has a strictly lower score than every tab, bookmark or history
result: suggestion scores are at most 15 while every local result's
adjusted score is at least 340. -/
theorem c9_suggestions_score_below_documents (st : EngineState)
    (query : String) (limit : Nat) (fuse : FuseOracle)
    (response : Option (List String)) (now : Int) (habit : String → Nat)
    (r1 r2 : SearchResult)
    (h1 : r1 ∈ (search st query limit fuse response now habit).1)
    (h2 : r2 ∈ (search st query limit fuse response now habit).1)
    (ht1 : r1.type = ResultType.suggestion)
    (ht2 : r2.type ≠ ResultType.suggestion) :
    r1.score < r2.score := by
  unfold search at h1 h2
  by_cases ha : trim query = ""
  · rw [if_pos ha] at h1
    simp at h1
  rw [if_neg ha] at h1 h2
  by_cases hb : strLen (trim query) < MIN_QUERY_LENGTH
  · rw [if_pos hb] at h1
    simp at h1
  rw [if_neg hb] at h1 h2
  simp only at h1 h2
  have h1m := mem_sortBy.mp (List.mem_of_mem_take h1)
  have h2m := mem_sortBy.mp (List.mem_of_mem_take h2)
  rw [List.mem_append] at h1m h2m
  rcases h1m with hl1 | hs1
  · exact absurd ht1
      (searchLocal_mem_bound st (trim query) limit fuse now habit r1 hl1).1
  rcases h2m with hl2 | hs2
  · have hscore1 := suggestionResults_score_le hs1
    have hlen := getGoogleSuggestions_length_le (trim query) response
    have hscore2 :=
      (searchLocal_mem_bound st (trim query) limit fuse now habit r2 hl2).2
    omega
  · exact absurd (suggestionResults_mem_type hs2) ht2

/-! ## Claim C10: at most five suggestions, never echoing the query -/

/-- C10: every list returned by `search` contains at most 5
`suggestion`-type results, and none of them carries a suggestion text
equal to the query after trimming and lower-casing. -/
theorem c10_suggestion_count_and_no_echo (st : EngineState) (query : String)
    (limit : Nat) (fuse : FuseOracle) (response : Option (List String))
    (now : Int) (habit : String → Nat) :
    ((search st query limit fuse response now habit).1.countP
      (fun r => decide (r.type = ResultType.suggestion))) ≤ 5
    ∧ ∀ r ∈ (search st query limit fuse response now habit).1,
        r.type = ResultType.suggestion →
        ∀ s, r.suggestion = some s →
        toLower (trim s) ≠ toLower (trim query) := by
  constructor
  · unfold search
    by_cases ha : trim query = ""
    · rw [if_pos ha]; simp
    rw [if_neg ha]
    by_cases hb : strLen (trim query) < MIN_QUERY_LENGTH
    · rw [if_pos hb]; simp
    rw [if_neg hb]
    simp only
    refine le_trans (List.Sublist.countP_le _ (List.take_sublist _ _)) ?_
    rw [(sortBy_perm _ _).countP_eq, List.countP_append]
    have hl : ((searchLocal st (trim query) limit fuse now habit).1.countP
        fun r => decide (r.type = ResultType.suggestion)) = 0 := by
      rw [List.countP_eq_zero]
      intro a ha2
      simpa using
        (searchLocal_mem_bound st (trim query) limit fuse now habit a ha2).1
    rw [hl]
    have hlen : (suggestionResults (trim query)
        (getGoogleSuggestions (trim query) response)).length ≤ 5 := by
      refine le_trans (le_trans (List.length_filterMap_le _ _) ?_)
        (getGoogleSuggestions_length_le (trim query) response)
      rw [List.enum_length]
    simpa using le_trans (List.countP_le_length _) hlen
  · intro r hr htype s hs
    unfold search at hr
    by_cases ha : trim query = ""
    · rw [if_pos ha] at hr
      simp at hr
    rw [if_neg ha] at hr
    by_cases hb : strLen (trim query) < MIN_QUERY_LENGTH
    · rw [if_pos hb] at hr
      simp at hr
    rw [if_neg hb] at hr
    simp only at hr
    have hrm := mem_sortBy.mp (List.mem_of_mem_take hr)
    rw [List.mem_append] at hrm
    rcases hrm with hl | hsug
    · exact absurd htype
        (searchLocal_mem_bound st (trim query) limit fuse now habit r hl).1
    · obtain ⟨s2, hs2mem, hs2⟩ := suggestionResults_suggestion_spec hsug
      rw [hs, Option.some.injEq] at hs2
      subst hs2
      exact mem_getGoogleSuggestions hs2mem

/-- Witness for C4: a trivial engine for the cap bounds, and a
two-tab same-domain list with distinct ids that deduplication keeps
whole. -/
theorem c4_domain_caps_witness :
    ((searchLocal { documents := [], isInitialized := false } "gh" 10
        (fun _ _ _ => []) 0 (fun _ => 0)).1.countP
      (fun r => decide (r.type = ResultType.history
        ∧ extractMainDomain r.url = "x.com"))) ≤ DEDUP_HISTORY_MAX_PER_DOMAIN
    ∧ (([({ id := "a", type := .tab, title := "", url := "https://x.com/1",
            score := 5 } : SearchResult),
         ({ id := "b", type := .tab, title := "", url := "https://x.com/2",
            score := 4 } : SearchResult)].map fun r => r.id).Nodup
      ∧ ({ id := "a", type := .tab, title := "", url := "https://x.com/1",
           score := 5 } : SearchResult)
          ∈ deduplicateResults
            [({ id := "a", type := .tab, title := "", url := "https://x.com/1",
                score := 5 } : SearchResult),
             ({ id := "b", type := .tab, title := "", url := "https://x.com/2",
                score := 4 } : SearchResult)]
      ∧ ({ id := "b", type := .tab, title := "", url := "https://x.com/2",
           score := 4 } : SearchResult)
          ∈ deduplicateResults
            [({ id := "a", type := .tab, title := "", url := "https://x.com/1",
                score := 5 } : SearchResult),
             ({ id := "b", type := .tab, title := "", url := "https://x.com/2",
                score := 4 } : SearchResult)]) := by
  refine ⟨(c4_domain_caps _ "gh" 10 _ 0 _ "x.com").1, by decide, ?_, ?_⟩
  · exact (c4_domain_caps { documents := [], isInitialized := false } "gh" 10
      (fun _ _ _ => []) 0 (fun _ => 0) "x.com").2.2 _ (by decide) _ (by decide)
      (by decide)
  · exact (c4_domain_caps { documents := [], isInitialized := false } "gh" 10
      (fun _ _ _ => []) 0 (fun _ => 0) "x.com").2.2 _ (by decide) _ (by decide)
      (by decide)

/-- Witness for C9: one indexed tab and one remote suggestion; the
suggestion (score 11) ranks strictly below the tab result (score 79320). -/
theorem c9_suggestions_score_below_documents_witness :
    witnessSuggestionResult
      ∈ (search witnessState "github" 10 witnessFuse
          (some ["github desktop"]) 0 (fun _ => 0)).1
    ∧ witnessTabResult
      ∈ (search witnessState "github" 10 witnessFuse
          (some ["github desktop"]) 0 (fun _ => 0)).1
    ∧ witnessSuggestionResult.type = ResultType.suggestion
    ∧ witnessTabResult.type ≠ ResultType.suggestion
    ∧ witnessSuggestionResult.score < witnessTabResult.score := by
  refine ⟨by decide, by decide, by decide, by decide, ?_⟩
  exact c9_suggestions_score_below_documents witnessState "github" 10
    witnessFuse (some ["github desktop"]) 0 (fun _ => 0)
    witnessSuggestionResult witnessTabResult
    (by decide) (by decide) (by decide) (by decide)

/-- Witness for C10 at the same one-tab/one-suggestion scenario. -/
theorem c10_suggestion_count_and_no_echo_witness :
    ((search witnessState "github" 10 witnessFuse
        (some ["github desktop"]) 0 (fun _ => 0)).1.countP
      (fun r => decide (r.type = ResultType.suggestion))) ≤ 5
    ∧ witnessSuggestionResult
      ∈ (search witnessState "github" 10 witnessFuse
          (some ["github desktop"]) 0 (fun _ => 0)).1
    ∧ witnessSuggestionResult.suggestion = some "github desktop"
    ∧ toLower (trim "github desktop") ≠ toLower (trim "github") := by
  refine ⟨(c10_suggestion_count_and_no_echo witnessState "github" 10
    witnessFuse (some ["github desktop"]) 0 (fun _ => 0)).1,
    by decide, by decide, ?_⟩
  exact (c10_suggestion_count_and_no_echo witnessState "github" 10
    witnessFuse (some ["github desktop"]) 0 (fun _ => 0)).2
    witnessSuggestionResult (by decide) (by decide) "github desktop" (by decide)

end Ctrlk
